import Mathlib

/-
Verification development for the Secretary AI database-tools layer
(`src/transcript_integrator/database_tools.py`).

The Python module is embedded shallowly:

* strings are Lean `String`s; Python `str.lower` is modelled with the ASCII
  case map `Char.toLower` (the repository's data is ASCII);
* the relational store is a record of row lists plus serial-id counters;
  one SQLAlchemy session = one state transition, and a raised exception
  rolls the transaction back, so every operation is a function
  `... → St → Except String (Obj × St)` whose `error` case carries the
  exception message and leaves the state unreadable/unchanged;
* SQL `ILIKE` is modelled by a pattern matcher over lowered strings with
  the `%`/`_` wildcard semantics of PostgreSQL;
* `difflib.get_close_matches` / `SequenceMatcher` are embedded below in
  the `Difflib` namespace, following CPython's implementation; the float
  ratios `2*M/T` are represented exactly by the pair `(M, T)` and all
  comparisons with the cutoff 0.6 and between candidates are carried out
  on rationals by cross-multiplication (for the sizes involved the float
  computation and the exact computation agree);
* calendar dates are abstracted to their components (year, month, day);
  timestamps are abstracted to ordinals.
-/

namespace SecretaryAI

/-! ### Python string primitives -/

/-- ASCII lower-casing of a single character (`'A'`–`'Z'` mapped down,
written as an explicit table). -/
def lowerChar (c : Char) : Char :=
  match c with
  | 'A' => 'a' | 'B' => 'b' | 'C' => 'c' | 'D' => 'd' | 'E' => 'e' | 'F' => 'f'
  | 'G' => 'g' | 'H' => 'h' | 'I' => 'i' | 'J' => 'j' | 'K' => 'k' | 'L' => 'l'
  | 'M' => 'm' | 'N' => 'n' | 'O' => 'o' | 'P' => 'p' | 'Q' => 'q' | 'R' => 'r'
  | 'S' => 's' | 'T' => 't' | 'U' => 'u' | 'V' => 'v' | 'W' => 'w' | 'X' => 'x'
  | 'Y' => 'y' | 'Z' => 'z'
  | c => c

/-- ASCII lower-casing of a string, modelling Python `str.lower`. -/
def lowerStr (s : String) : String := ⟨s.data.map lowerChar⟩

/-- Characters treated as whitespace by Python `str.strip()` / `str.split()`. -/
def isPySpace (c : Char) : Bool :=
  c == ' ' || c == '\t' || c == '\n' || c == '\r' || c == '\x0b' || c == '\x0c'

/-- Python `str.strip()` on a character list. -/
def stripChars (l : List Char) : List Char :=
  ((l.dropWhile isPySpace).reverse.dropWhile isPySpace).reverse

/-- Python `str.strip()`. -/
def pyStrip (s : String) : String := ⟨stripChars s.data⟩

/-- Python `str.rstrip(cs)` for an explicit character set. -/
def pyRstrip (s : String) (cs : List Char) : String :=
  ⟨((s.data.reverse.dropWhile (fun c => cs.contains c))).reverse⟩

/-- Everything before the first occurrence of `(`, modelling
`s.split("(", 1)[0]`. -/
def beforeParen (s : String) : String := ⟨s.data.takeWhile (fun c => c ≠ '(')⟩

/-- Whitespace tokenisation, modelling Python `str.split()` (no argument):
maximal runs of non-whitespace characters, in order. -/
def pySplitAux : List Char → List Char → List String
  | [], acc => if acc.isEmpty then [] else [⟨acc.reverse⟩]
  | c :: rest, acc =>
    if isPySpace c then
      if acc.isEmpty then pySplitAux rest [] else ⟨acc.reverse⟩ :: pySplitAux rest []
    else
      pySplitAux rest (c :: acc)

/-- Python `str.split()`. -/
def pySplit (s : String) : List String := pySplitAux s.data []

/-- Digit-run parser for `pyParseInt`: consumes ASCII digits with single
underscores allowed between digits (Python 3 literal grouping), returning
the accumulated value. -/
def digitsVal : List Char → Option Nat
  | [] => none
  | c :: rest =>
    if c.isDigit then
      let rec go : List Char → Nat → Option Nat
        | [], acc => some acc
        | '_' :: d :: rest, acc =>
          if d.isDigit then go rest (acc * 10 + (d.toNat - '0'.toNat)) else none
        | '_' :: [], _ => none
        | d :: rest, acc =>
          if d.isDigit then go rest (acc * 10 + (d.toNat - '0'.toNat)) else none
      go rest (c.toNat - '0'.toNat)
    else none

/-- Python `int(s)` on a string: strip whitespace, optional sign, ASCII
digit run (with `_` grouping); `none` models the raised `ValueError`. -/
def pyParseInt (s : String) : Option Int :=
  match (pyStrip s).data with
  | '+' :: rest => (digitsVal rest).map Int.ofNat
  | '-' :: rest => (digitsVal rest).map (fun n => -(Int.ofNat n))
  | l => (digitsVal l).map Int.ofNat

/-! ### SQL LIKE / ILIKE patterns -/

/-- LIKE pattern matching over character lists with a fuel bound (every
step shrinks `pattern.length + value.length`, so any fuel above that sum is
enough): `%` matches any sequence, `_` matches exactly one character,
everything else matches itself. -/
def likeMatchF : Nat → List Char → List Char → Bool
  | 0, _, _ => false
  | _ + 1, [], [] => true
  | _ + 1, [], _ :: _ => false
  | fuel + 1, '%' :: ps, [] => likeMatchF fuel ps []
  | fuel + 1, '%' :: ps, c :: rest =>
    likeMatchF fuel ps (c :: rest) || likeMatchF fuel ('%' :: ps) rest
  | fuel + 1, '_' :: ps, _ :: rest => likeMatchF fuel ps rest
  | _ + 1, '_' :: _, [] => false
  | fuel + 1, p :: ps, c :: rest => p == c && likeMatchF fuel ps rest
  | _ + 1, _ :: _, [] => false

/-- LIKE pattern matching over character lists. -/
def likeMatch (ps s : List Char) : Bool :=
  likeMatchF (ps.length + s.length + 1) ps s

/-- PostgreSQL `ILIKE`: LIKE on the lower-cased pattern and value. -/
def ilike (pattern value : String) : Bool :=
  likeMatch (lowerStr pattern).data (lowerStr value).data

/-- The `column.ilike(f"%{q}%")` substring search used by the lookups. -/
def ilikeSub (q value : String) : Bool :=
  ilike ("%" ++ q ++ "%") value

/-- Case-insensitive `ilike` against an optional (nullable) column; SQL
`NULL ILIKE p` is not true. -/
def ilikeSubOpt (q : String) : Option String → Bool
  | none => false
  | some v => ilikeSub q v

/-! ### Calendar dates -/

/-- Gregorian leap-year test, as in Python's `datetime`. -/
def isLeap (y : Nat) : Bool :=
  (y % 4 == 0 && y % 100 != 0) || y % 400 == 0

/-- Number of days in a month. -/
def daysInMonth (y m : Nat) : Nat :=
  if m == 2 then (if isLeap y then 29 else 28)
  else if m == 4 || m == 6 || m == 9 || m == 11 then 30
  else 31

/-- Date record produced by `datetime.strptime(s, "%Y-%m-%d").date()`. -/
structure Date where
  year : Nat
  month : Nat
  day : Nat
deriving Repr, DecidableEq

/-- A run of `lo` to `hi` ASCII digits, as matched by strptime's
directives (`%Y` is exactly 4 digits, `%m`/`%d` are 1 to 2). -/
def digitRun (lo hi : Nat) (l : List Char) : Option Nat :=
  if decide (l.length < lo) || decide (l.length > hi) || l.any (fun c => !c.isDigit) then none
  else some (l.foldl (fun acc c => acc * 10 + (c.toNat - '0'.toNat)) 0)

/-- Splitting a character list at every occurrence of `c` (Python
`s.split("-")` semantics: empty pieces are kept). -/
def splitOnChar (c : Char) : List Char → List (List Char)
  | [] => [[]]
  | x :: rest =>
    if x = c then [] :: splitOnChar c rest
    else
      match splitOnChar c rest with
      | h :: t => (x :: h) :: t
      | [] => [[x]]

/-- Python `datetime.strptime(s, "%Y-%m-%d")`: `%Y` is exactly 4 digits, `%m`
and `%d` are 1–2 digits, separated by literal dashes, with full-string match
and calendar validation; `none` models the raised `ValueError`. -/
def parseYMD (s : String) : Option Date :=
  match splitOnChar '-' s.data with
  | [ys, ms, ds] =>
    match digitRun 4 4 ys, digitRun 1 2 ms, digitRun 1 2 ds with
    | some y, some m, some d =>
      if 1 ≤ y ∧ y ≤ 9999 ∧ 1 ≤ m ∧ m ≤ 12 ∧ 1 ≤ d ∧ d ≤ daysInMonth y m then
        some ⟨y, m, d⟩
      else none
    | _, _, _ => none
  | _ => none

/-- Rendering `str(task_deadline)` for a parsed date (ISO format). -/
def pad2 (n : Nat) : String := if n < 10 then "0" ++ toString n else toString n

/-- ISO rendering of a `Date`, modelling Python `str(date)`. -/
def dateStr (d : Date) : String :=
  toString d.year ++ "-" ++ pad2 d.month ++ "-" ++ pad2 d.day

/-! ### difflib: `SequenceMatcher` and `get_close_matches`

Embedding of CPython's `difflib` as used by `_fuzzy_match_member`
(`difflib.get_close_matches(key, candidates, n=1, cutoff=0.6)`).
`SequenceMatcher(None, a, b)` has no junk predicate, so the junk set is
empty and the two junk extension loops of `find_longest_match` never run;
the autojunk "popular" heuristic (active only for `len(b) >= 200`) is
modelled. `get_matching_blocks` merges adjacent blocks, which does not
change the total matched size, the only quantity `ratio()` consumes, so
the total is computed directly by recursion. Ratios `2*M/T` are kept as
exact pairs `(M, T)` and compared by cross-multiplication. -/

namespace Difflib

/-- Default character for out-of-range list indexing (never observed). -/
def dChar : Char := ' '

/-- Ascending list of positions of `c` in `b` (the `b2j` dict before
autojunk removal). -/
def positions (b : List Char) (c : Char) : List Nat :=
  (List.range b.length).filter (fun j => b.getD j dChar == c)

/-- The autojunk test of `SequenceMatcher.__chain_b`: for `len(b) >= 200`,
elements occurring more than `len(b) // 100 + 1` times are dropped. -/
def popular (b : List Char) (c : Char) : Bool :=
  b.length ≥ 200 && (positions b c).length > b.length / 100 + 1

/-- Final `b2j` mapping: positions of `c` in `b`, with popular elements
removed. -/
def b2j (b : List Char) (c : Char) : List Nat :=
  if popular b c then [] else positions b c

/-- Column indices visited in row `i` of `find_longest_match`: positions of
`a[i]` in `b` within `[blo, bhi)` (the `if j < blo: continue` /
`if j >= bhi: break` filtering, with positions ascending). -/
def cols (a b : List Char) (blo bhi i : Nat) : List Nat :=
  (b2j b (a.getD i dChar)).filter (fun j => blo ≤ j && j < bhi)

/-- Run length extension: `k = j2len.get(j-1, 0) + 1` (a missing entry and
`j = 0`, i.e. Python's `j2len.get(-1, 0)`, both give 0). -/
def newLen (j2len : Nat → Nat) (j : Nat) : Nat :=
  (if j = 0 then 0 else j2len (j - 1)) + 1

/-- One row's `newj2len` dict as a total function (0 encodes "absent"). -/
def rowJ2 (cs : List Nat) (j2len : Nat → Nat) : Nat → Nat :=
  fun j => if cs.contains j then newLen j2len j else 0

/-- A matching block `(besti, bestj, bestsize)`. -/
structure Block where
  bi : Nat
  bj : Nat
  size : Nat
deriving Repr, DecidableEq

/-- Best-block update while scanning row `i`'s columns in ascending order:
`if k > bestsize: besti, bestj, bestsize = i-k+1, j-k+1, k`. -/
def rowBest (i : Nat) (j2len : Nat → Nat) (cs : List Nat) (best : Block) : Block :=
  cs.foldl
    (fun best j =>
      let k := newLen j2len j
      if k > best.size then ⟨i + 1 - k, j + 1 - k, k⟩ else best)
    best

/-- The `j2len` dict after the first `t` rows (rows `alo, …, alo+t-1`). -/
def jstate (a b : List Char) (blo bhi alo : Nat) : Nat → (Nat → Nat)
  | 0 => fun _ => 0
  | t + 1 => rowJ2 (cols a b blo bhi (alo + t)) (jstate a b blo bhi alo t)

/-- The best block after the first `t` rows, starting from
`besti, bestj, bestsize = alo, blo, 0`. -/
def bstate (a b : List Char) (alo blo bhi : Nat) : Nat → Block
  | 0 => ⟨alo, blo, 0⟩
  | t + 1 =>
    rowBest (alo + t) (jstate a b blo bhi alo t) (cols a b blo bhi (alo + t))
      (bstate a b alo blo bhi t)

/-- Leftward extension of the best block (`while besti > alo and bestj > blo
and a[besti-1] == b[bestj-1]`; the junk-set test is vacuous). The fuel is an
upper bound on the iteration count. -/
def extLeft (a b : List Char) (alo blo : Nat) : Nat → Block → Block
  | 0, blk => blk
  | fuel + 1, blk =>
    if blk.bi > alo && blk.bj > blo
        && (a.getD (blk.bi - 1) dChar == b.getD (blk.bj - 1) dChar) then
      extLeft a b alo blo fuel ⟨blk.bi - 1, blk.bj - 1, blk.size + 1⟩
    else blk

/-- Rightward extension of the best block (`while besti+bestsize < ahi and
bestj+bestsize < bhi and a[besti+bestsize] == b[bestj+bestsize]`). -/
def extRight (a b : List Char) (ahi bhi : Nat) : Nat → Block → Block
  | 0, blk => blk
  | fuel + 1, blk =>
    if blk.bi + blk.size < ahi && blk.bj + blk.size < bhi
        && (a.getD (blk.bi + blk.size) dChar == b.getD (blk.bj + blk.size) dChar) then
      extRight a b ahi bhi fuel ⟨blk.bi, blk.bj, blk.size + 1⟩
    else blk

/-- The full `find_longest_match(alo, ahi, blo, bhi)`: the row scan followed
by the two (non-junk) extension loops. -/
def flm (a b : List Char) (alo ahi blo bhi : Nat) : Block :=
  let base := bstate a b alo blo bhi (ahi - alo)
  let l := extLeft a b alo blo base.bi base
  extRight a b ahi bhi ahi l

/-- Total size of all matching blocks (`sum(size for _, _, size in
get_matching_blocks())`), by the same divide-and-conquer recursion as
`get_matching_blocks`; adjacent-block merging preserves this total. The
fuel dominates the recursion depth (each call strictly shrinks `ahi-alo`). -/
def mTotal (a b : List Char) : Nat → Nat → Nat → Nat → Nat → Nat
  | 0, _, _, _, _ => 0
  | fuel + 1, alo, ahi, blo, bhi =>
    let blk := flm a b alo ahi blo bhi
    if blk.size = 0 then 0
    else
      mTotal a b fuel alo blk.bi blo blk.bj + blk.size
        + mTotal a b fuel (blk.bi + blk.size) ahi (blk.bj + blk.size) bhi

/-- Total matching size for the whole strings, `M` in
`ratio() = 2*M / (len(a)+len(b))`. -/
def mFull (a b : List Char) : Nat :=
  mTotal a b (a.length + 1) 0 a.length 0 b.length

/-- Numerator of `_calculate_ratio(matches, length)` as an exact rational
(`2*matches`, or 1 for the empty-length convention `ratio = 1.0`). -/
def rNum (m t : Nat) : Nat := if t = 0 then 1 else 2 * m

/-- Denominator of `_calculate_ratio(matches, length)`. -/
def rDen (t : Nat) : Nat := if t = 0 then 1 else t

/-- Test `_calculate_ratio(m, t) >= 0.6` exactly: `5 * (2m) ≥ 3 * t`. -/
def ratCutoff (m t : Nat) : Bool := 5 * rNum m t ≥ 3 * rDen t

/-- Strict comparison of two ratios by cross-multiplication. -/
def ratLt (m1 t1 m2 t2 : Nat) : Bool :=
  rNum m1 t1 * rDen t2 < rNum m2 t2 * rDen t1

/-- Equality of two ratios by cross-multiplication. -/
def ratEq (m1 t1 m2 t2 : Nat) : Bool :=
  rNum m1 t1 * rDen t2 == rNum m2 t2 * rDen t1

/-- The bookkeeping loop of `quick_ratio`: walks `a`, tracking for each
element how many occurrences of it in `b` are still available. -/
def qLoop (bcount : Char → Nat) : List Char → (Char → Option Int) → Nat → Nat
  | [], _, acc => acc
  | c :: rest, avail, acc =>
    let numb : Int :=
      match avail c with
      | some v => v
      | none => (bcount c : Int)
    qLoop bcount rest (fun x => if x = c then some (numb - 1) else avail x)
      (if numb > 0 then acc + 1 else acc)

/-- The `matches` count of `quick_ratio()`. -/
def quickM (a b : List Char) : Nat :=
  qLoop (fun c => b.count c) a (fun _ => none) 0

/-- A scored candidate `(ratio, string)` kept by `get_close_matches`:
the ratio is the exact pair `(m, t)`. -/
structure Cand where
  m : Nat
  t : Nat
  key : String
deriving Repr, DecidableEq

/-- Python tuple comparison `(ratio1, x1) < (ratio2, x2)`: by ratio, ties
by code-point lexicographic string order. -/
def candLt (c1 c2 : Cand) : Bool :=
  ratLt c1.m c1.t c2.m c2.t || (ratEq c1.m c1.t c2.m c2.t && decide (c1.key < c2.key))

/-- Scoring and filtering of one possibility `x` against the query `word`
(`a = x`, `b = word`): the `real_quick_ratio() >= cutoff and quick_ratio()
>= cutoff and ratio() >= cutoff` chain with cutoff 0.6. -/
def score (word x : String) : Option Cand :=
  let a := x.data
  let b := word.data
  let t := a.length + b.length
  if ratCutoff (min a.length b.length) t then
    if ratCutoff (quickM a b) t then
      let m := mFull a b
      if ratCutoff m t then some ⟨m, t, x⟩ else none
    else none
  else none

/-- Maximum candidate under the tuple order (`heapq._nlargest(1, result)`);
ties are impossible because the possibilities are distinct. -/
def pickMax (cands : List Cand) : Option Cand :=
  cands.foldl
    (fun best c =>
      match best with
      | none => some c
      | some b0 => if candLt b0 c then some c else best)
    none

/-- The embedding of `difflib.get_close_matches(word, possibilities, n=1,
cutoff=0.6)`, returning the single best match if any. -/
def gcm (word : String) (possibilities : List String) : Option String :=
  (pickMax (possibilities.filterMap (score word))).map Cand.key

end Difflib

/-! ### JSON-ish values: the result envelopes are Python dicts -/

/-- Values appearing inside a result envelope. -/
inductive JVal where
  | s : String → JVal
  | num : Int → JVal
  | b : Bool → JVal
  | null : JVal
  | arr : List JVal → JVal
  | obj : List (String × JVal) → JVal
deriving Repr

/-- Result envelope: a Python dict with string keys, in insertion order. -/
def Obj := List (String × JVal)

instance : Repr Obj := inferInstanceAs (Repr (List (String × JVal)))

/-- Lookup of a key in an envelope. -/
def Obj.get (o : Obj) (k : String) : Option JVal :=
  (List.lookup k o : Option JVal)

/-- Extracts the error message of an envelope, if any. -/
def Obj.errMsg (o : Obj) : Option String :=
  match o.get "error" with
  | some (JVal.s m) => some m
  | _ => none

/-- String rendering helper. -/
def jS (s : String) : JVal := JVal.s s

/-- Nullable string rendering. -/
def jOptS : Option String → JVal
  | some s => JVal.s s
  | none => JVal.null

/-- Natural-number rendering. -/
def jNat (n : Nat) : JVal := JVal.num (Int.ofNat n)

/-- Nullable number rendering. -/
def jOptNat : Option Nat → JVal
  | some n => jNat n
  | none => JVal.null

/-! ### Data model: the rows of the relational store

Rows mirror the columns `database_tools.py` reads and writes.  Nullable
columns are `Option`s; `member_name` uses `""` for an absent name (the
code only ever tests its truthiness).  Primary keys are `Nat`s and the
serial id generators are explicit counters. -/

/-- A `committee` row. -/
structure MemberRow where
  member_id : Nat
  member_name : String
  discord_id : Option Nat
  role : Option String
  subcommittee : Option String
  email : Option String
deriving Repr, DecidableEq

/-- A `tasks` row. -/
structure TaskRow where
  task_id : Nat
  task_name : String
  task_description : Option String
  task_deadline : Option Date
  task_status : Option String
deriving Repr, DecidableEq

/-- A `meetings` row; the ingestion timestamp is abstracted to an ordinal. -/
structure MeetingRow where
  meeting_id : Nat
  meeting_name : String
  meeting_type : Option String
  meeting_summary : Option String
  ingestion_timestamp : Option Nat
deriving Repr, DecidableEq

/-- A `projects` row. -/
structure ProjectRow where
  project_id : Nat
  project_name : String
  project_description : Option String
deriving Repr, DecidableEq

/-- A `topics` row. -/
structure TopicRow where
  topic_id : Nat
  topic_name : String
  topic_description : Option String
deriving Repr, DecidableEq

/-- The relational store: entity tables, junction tables (pairs of foreign
keys, in insertion order) and the serial-id counters of the three tables
this layer inserts into. -/
structure DB where
  committee : List MemberRow
  tasks : List TaskRow
  meetings : List MeetingRow
  projects : List ProjectRow
  topics : List TopicRow
  task_members : List (Nat × Nat)
  meeting_members : List (Nat × Nat)
  meeting_topics : List (Nat × Nat)
  meeting_tasks : List (Nat × Nat)
  meeting_projects : List (Nat × Nat)
  project_members : List (Nat × Nat)
  project_tasks : List (Nat × Nat)
  next_task_id : Nat
  next_project_id : Nat
  next_topic_id : Nat
deriving Repr, DecidableEq

/-! ### The member cache and `_fuzzy_match_member` -/

/-- The member dict stored in `_member_cache` / `_member_first_name_index`. -/
structure CMember where
  id : Nat
  name : String
  discord_id : Option Nat
  role : Option String
  subcommittee : Option String
  email : Option String
deriving Repr, DecidableEq

/-- The dict built for a committee row. -/
def CMember.ofRow (r : MemberRow) : CMember :=
  ⟨r.member_id, r.member_name, r.discord_id, r.role, r.subcommittee, r.email⟩

/-- Dict insertion: replace in place if present (keeping the key's
position, as Python dicts do), else append. -/
def upsert {κ α : Type} [DecidableEq κ] (k : κ) (v : α) : List (κ × α) → List (κ × α)
  | [] => [(k, v)]
  | (k0, v0) :: rest => if k0 = k then (k, v) :: rest else (k0, v0) :: upsert k v rest

/-- The `d.setdefault(k, []).append(v)` idiom. -/
def appendAt {κ α : Type} [DecidableEq κ] (k : κ) (v : α) :
    List (κ × List α) → List (κ × List α)
  | [] => [(k, [v])]
  | (k0, l) :: rest =>
    if k0 = k then (k0, l ++ [v]) :: rest else (k0, l) :: appendAt k v rest

/-- The two lazily built member indexes: full name (lower) → dict, first
name (lower) → dicts in insertion order. -/
structure Caches where
  full : List (String × CMember)
  fidx : List (String × List CMember)
deriving Repr, DecidableEq

/-- Cache construction (`_ensure_cache`'s loop): rows with a falsy name are
skipped; `name.split()[0]` on a whitespace-only name raises `IndexError`,
modelled by `none`. -/
def buildCachesAux (acc : Caches) : List MemberRow → Option Caches
  | [] => some acc
  | r :: rest =>
    if r.member_name = "" then buildCachesAux acc rest
    else
      match pySplit r.member_name with
      | [] => none
      | tok :: _ =>
        let d := CMember.ofRow r
        buildCachesAux
          ⟨upsert (lowerStr r.member_name) d acc.full,
            appendAt (lowerStr tok) d acc.fidx⟩ rest

/-- Builds the member cache from the committee table. -/
def buildCaches (rows : List MemberRow) : Option Caches :=
  buildCachesAux ⟨[], []⟩ rows

/-- Input normalisation of `_fuzzy_match_member`: drop a trailing
parenthetical, strip, drop trailing `,;.-` punctuation, strip, lower. -/
def cleanKey (raw : String) : String :=
  lowerStr (pyStrip (pyRstrip (pyStrip (beforeParen raw)) [',', ';', '.', '-']))

/-- First-name index lookup (`self._member_first_name_index.get(key, [])`). -/
def firstNameMatches (c : Caches) (key : String) : List CMember :=
  match List.lookup key c.fidx with
  | some l => l
  | none => []

/-- Stage 3 of the resolver: `difflib.get_close_matches(key, keys, 1, 0.6)`
followed by the cache lookup of the winner. -/
def fuzzyStage (c : Caches) (key : String) : Option CMember :=
  (Difflib.gcm key (c.full.map Prod.fst)).bind (fun k => List.lookup k c.full)

/-- The resolver `DatabaseTools._fuzzy_match_member`: exact full-name match,
then unique-first-name match for single-word keys, then fuzzy full-name
match, else no match. -/
def fuzzyMatchMember (c : Caches) (name : String) : Option CMember :=
  let raw := pyStrip name
  if raw = "" then none
  else
    let key := cleanKey raw
    match List.lookup key c.full with
    | some m => some m
    | none =>
      if key.data.contains ' ' then fuzzyStage c key
      else
        match firstNameMatches c key with
        | [m] => some m
        | _ => fuzzyStage c key

/-! ### Sessions, exceptions and shared query helpers

Each tool invocation runs in one session whose work is committed at the
end; an exception raised before the commit rolls everything back.  An
operation is therefore a function `… → St → Except String (Obj × St)`:
`ok` carries the returned envelope and the committed state, `error`
carries the exception message (the state is unchanged — nothing was
committed). -/

/-- Process state: the store, the lazily loaded member cache, and the
server clock consumed by `get_current_datetime` (abstracted to an
ordinal). -/
structure St where
  db : DB
  cache : Option Caches
  now : Nat
deriving Repr, DecidableEq

/-- Message of SQLAlchemy's `MultipleResultsFound`. -/
def multiRowsMsg : String := "Multiple rows were found when one or none was required"

/-- Message of `str(KeyError(k))` for a missing dict key. -/
def keyErrMsg (k : String) : String := "'" ++ k ++ "'"

/-- Message of the `IndexError` raised by `name.split()[0]` on a
whitespace-only member name. -/
def indexErrMsg : String := "list index out of range"

/-- Abstraction of the message of a dynamic type error raised when a tool
argument does not have the shape the operation expects. -/
def badArgMsg : String := "unsupported argument type"

/-- SQLAlchemy `Result.scalar_one_or_none()`. -/
def scalarOneOrNone {α : Type} : List α → Except String (Option α)
  | [] => Except.ok none
  | [x] => Except.ok (some x)
  | _ => Except.error multiRowsMsg

/-- The `_ensure_cache` guard: build the member indexes on first use. -/
def ensureCache (st : St) : Except String (Caches × St) :=
  match st.cache with
  | some c => Except.ok (c, st)
  | none =>
    match buildCaches st.db.committee with
    | some c => Except.ok (c, { st with cache := some c })
    | none => Except.error indexErrMsg

/-- The `get_member_by_discord_id` query (ensures the cache, then selects
by the Discord id with `scalar_one_or_none`). -/
def getMemberByDiscordId (did : Nat) (st : St) :
    Except String (Option CMember × St) := do
  let (_, st) ← ensureCache st
  let r ← scalarOneOrNone (st.db.committee.filter (fun r => r.discord_id == some did))
  Except.ok (r.map CMember.ofRow, st)

/-- Python `x or "incomplete"` for the stored status (absent and empty both
display as incomplete). -/
def statusOr : Option String → String
  | none => "incomplete"
  | some v => if v = "" then "incomplete" else v

/-- Deadline rendering `str(task_deadline) if task_deadline else None`. -/
def jDeadline : Option Date → JVal
  | some d => jS (dateStr d)
  | none => JVal.null

/-- Abstraction of `str(ts.date())` for the abstracted timestamp. -/
def tsDate (n : Nat) : String := toString n

/-- Meeting date rendering. -/
def jMeetingDate : Option Nat → JVal
  | some n => jS (tsDate n)
  | none => JVal.null

/-- Sort key placing deadlines in ascending calendar order with unset
deadlines last (`Task.task_deadline.asc().nullslast()`; months and days
are below 100, so the mixed radix key is order-faithful). -/
def deadlineKey : Option Date → Nat
  | some d => d.year * 10000 + d.month * 100 + d.day
  | none => 100000000

/-- The deadline ordering used when listing tasks. -/
def taskLe (t1 t2 : TaskRow) : Prop :=
  deadlineKey t1.task_deadline ≤ deadlineKey t2.task_deadline

instance : DecidableRel taskLe := fun _ _ => Nat.decLe _ _

/-- Deterministic realization of the task `ORDER BY` (SQL leaves ties
unspecified; a stable sort is one valid outcome). -/
def sortTasks (l : List TaskRow) : List TaskRow := List.insertionSort taskLe l

/-- Ordering `ingestion_timestamp.desc()` (PostgreSQL places NULLs first
on a descending sort). -/
def meetingDescLe (m1 m2 : MeetingRow) : Prop :=
  match m1.ingestion_timestamp, m2.ingestion_timestamp with
  | none, _ => True
  | some _, none => False
  | some a, some b => b ≤ a

instance : DecidableRel meetingDescLe := fun m1 m2 => by
  unfold meetingDescLe
  match m1.ingestion_timestamp, m2.ingestion_timestamp with
  | none, _ => exact inferInstanceAs (Decidable True)
  | some _, none => exact inferInstanceAs (Decidable False)
  | some a, some b => exact Nat.decLe _ _

/-- Deterministic realization of the meeting `ORDER BY … DESC`. -/
def sortMeetingsDesc (l : List MeetingRow) : List MeetingRow :=
  List.insertionSort meetingDescLe l

/-- Name ordering for `ORDER BY project_name` / `ORDER BY member_name`
(the store's collation is abstracted to code-point order). -/
def sortProjects (l : List ProjectRow) : List ProjectRow :=
  List.insertionSort (fun p1 p2 => p1.project_name ≤ p2.project_name) l

/-- Member listing order. -/
def sortMembers (l : List MemberRow) : List MemberRow :=
  List.insertionSort (fun m1 m2 => m1.member_name ≤ m2.member_name) l

/-- Junction-driven join: the rows of `tbl` referenced by the pairs of
`junc` whose left component is `k`, via the right component (one
deterministic realization of the SQL join's row order). -/
def joinVia {α : Type} (junc : List (Nat × Nat)) (k : Nat)
    (tbl : List α) (key : α → Nat) : List α :=
  (junc.filter (fun p => p.1 == k)).flatMap
    (fun p => tbl.filter (fun r => key r == p.2))

/-- Same join keyed on the right component of the junction pair. -/
def joinViaR {α : Type} (junc : List (Nat × Nat)) (k : Nat)
    (tbl : List α) (key : α → Nat) : List α :=
  (junc.filter (fun p => p.2 == k)).flatMap
    (fun p => tbl.filter (fun r => key r == p.1))

/-! ### Retrieval operations -/

/-- NotFound envelope for member-name lookups. -/
def memberNotFound (name : String) : Obj :=
  [("error", jS ("Could not find a member matching '" ++ name ++ "'"))]

/-- Task rendering used by `get_my_tasks`. -/
def jMyTask (t : TaskRow) : JVal :=
  JVal.obj
    [("task_id", jNat t.task_id), ("name", jS t.task_name),
      ("description", jOptS t.task_description),
      ("deadline", jDeadline t.task_deadline),
      ("status", jS (statusOr t.task_status))]

/-- Member-dict rendering (`get_member_by_discord_id`'s key order). -/
def jCMember (m : CMember) : JVal :=
  JVal.obj
    [("id", jNat m.id), ("name", jS m.name), ("email", jOptS m.email),
      ("role", jOptS m.role), ("subcommittee", jOptS m.subcommittee),
      ("discord_id", jOptNat m.discord_id)]

/-- The operation `get_my_identity`. -/
def getMyIdentity (did : Nat) (st : St) : Except String (Obj × St) := do
  let (m, st) ← getMemberByDiscordId did st
  match m with
  | none =>
    Except.ok
      ([("error", jS "Could not find your member record. Your Discord account may not be linked in the committee table.")], st)
  | some m =>
    Except.ok
      ([("message", jS ("You are " ++ m.name ++ " in the society.")),
         ("member", jCMember m)], st)

/-- The operation `get_my_tasks`. -/
def getMyTasks (did : Nat) (st : St) : Except String (Obj × St) := do
  let (_, st) ← ensureCache st
  let (m, st) ← getMemberByDiscordId did st
  match m with
  | none =>
    Except.ok
      ([("error", jS "Could not find your member record. Please contact an admin to link your Discord account.")], st)
  | some m =>
    let tasks := sortTasks (joinViaR st.db.task_members m.id st.db.tasks TaskRow.task_id)
    if tasks.isEmpty then
      Except.ok
        ([("message", jS ("You (" ++ m.name ++ ") have no tasks assigned.")),
           ("tasks", JVal.arr [])], st)
    else
      Except.ok
        ([("message", jS ("Found " ++ toString tasks.length ++ " task(s) for " ++ m.name)),
           ("tasks", JVal.arr (tasks.map jMyTask))], st)

/-- The names of the members assigned to a task. -/
def taskAssignees (db : DB) (tid : Nat) : List String :=
  (joinVia db.task_members tid db.committee MemberRow.member_id).map MemberRow.member_name

/-- Status filtering of `get_all_tasks`: `complete` and `incomplete` add a
`WHERE`; anything else (including `all`) lists everything. -/
def filterTasks (filt : String) (l : List TaskRow) : List TaskRow :=
  if filt = "complete" then l.filter (fun t => t.task_status == some "complete")
  else if filt = "incomplete" then
    l.filter (fun t => t.task_status == some "incomplete" || t.task_status == none)
  else l

/-- The sorted, filtered task listing underlying `get_all_tasks`. -/
def allTasksSorted (db : DB) (filt : String) : List TaskRow :=
  sortTasks (filterTasks filt db.tasks)

/-- Task rendering used by `get_all_tasks` (adds the assignees). -/
def jAllTask (db : DB) (t : TaskRow) : JVal :=
  JVal.obj
    [("task_id", jNat t.task_id), ("name", jS t.task_name),
      ("description", jOptS t.task_description),
      ("deadline", jDeadline t.task_deadline),
      ("status", jS (statusOr t.task_status)),
      ("assigned_to", JVal.arr ((taskAssignees db t.task_id).map jS))]

/-- The operation `get_all_tasks`. -/
def getAllTasks (filt : String) (st : St) : Except String (Obj × St) :=
  let tasks := allTasksSorted st.db filt
  Except.ok
    ([("message",
        jS ("Found " ++ toString tasks.length ++ " task(s)"
          ++ (if filt ≠ "all" then " with status '" ++ filt ++ "'" else ""))),
       ("tasks", JVal.arr (tasks.map (jAllTask st.db)))], st)

/-- The operation `get_member_info`. -/
def getMemberInfo (member_name : String) (st : St) : Except String (Obj × St) := do
  let (c, st) ← ensureCache st
  match fuzzyMatchMember c member_name with
  | none => Except.ok (memberNotFound member_name, st)
  | some matched => do
    let row ← scalarOneOrNone (st.db.committee.filter (fun r => r.member_id == matched.id))
    match row with
    | none => Except.ok ([("error", jS "Member record not found")], st)
    | some member =>
      let projects :=
        (joinViaR st.db.project_members member.member_id st.db.projects
          ProjectRow.project_id).map ProjectRow.project_name
      let tasks :=
        joinViaR st.db.task_members member.member_id st.db.tasks TaskRow.task_id
      Except.ok
        ([("member_id", jNat member.member_id), ("name", jS member.member_name),
           ("email", jOptS member.email), ("role", jOptS member.role),
           ("subcommittee", jOptS member.subcommittee),
           ("discord_id", jOptNat member.discord_id),
           ("projects", JVal.arr (projects.map jS)),
           ("tasks", JVal.arr (tasks.map (fun t =>
             JVal.obj [("name", jS t.task_name), ("status", jS (statusOr t.task_status))])))],
          st)

/-- Meeting resolution by id (`int(...)` then primary-key lookup) shared by
the meeting operations; `none` means "fall through to the name search". -/
def meetingById (ident : String) (db : DB) : Except String (Option MeetingRow) :=
  match pyParseInt ident with
  | none => Except.ok none
  | some i => scalarOneOrNone (db.meetings.filter (fun m => Int.ofNat m.meeting_id == i))

/-- Name-substring candidates for a meeting identifier. -/
def meetingMatches (ident : String) (db : DB) : List MeetingRow :=
  db.meetings.filter (fun m => ilikeSub ident m.meeting_name)

/-- The operation `get_meeting_info`. -/
def getMeetingInfo (ident : String) (st : St) : Except String (Obj × St) := do
  let byId ← meetingById ident st.db
  let resolved : Except String (Option MeetingRow × Option Obj) :=
    match byId with
    | some m => Except.ok (some m, none)
    | none =>
      match meetingMatches ident st.db with
      | [m] => Except.ok (some m, none)
      | [] => Except.ok (none, none)
      | ms =>
        Except.ok (none,
          some [("error", jS "Multiple meetings match that name"),
            ("matches", JVal.arr ((ms.take 5).map (fun m =>
              JVal.obj [("id", jNat m.meeting_id), ("name", jS m.meeting_name)])))])
  match ← resolved with
  | (_, some amb) => Except.ok (amb, st)
  | (none, none) =>
    Except.ok
      ([("error", jS ("Could not find a meeting matching '" ++ ident ++ "'"))], st)
  | (some meeting, none) =>
    let attendees :=
      (joinVia st.db.meeting_members meeting.meeting_id st.db.committee
        MemberRow.member_id).map MemberRow.member_name
    let topics :=
      (joinVia st.db.meeting_topics meeting.meeting_id st.db.topics
        TopicRow.topic_id).map TopicRow.topic_name
    let tasks :=
      joinVia st.db.meeting_tasks meeting.meeting_id st.db.tasks TaskRow.task_id
    let projects :=
      (joinVia st.db.meeting_projects meeting.meeting_id st.db.projects
        ProjectRow.project_id).map ProjectRow.project_name
    Except.ok
      ([("meeting_id", jNat meeting.meeting_id), ("name", jS meeting.meeting_name),
         ("type", jOptS meeting.meeting_type),
         ("summary", jOptS meeting.meeting_summary),
         ("date", jMeetingDate meeting.ingestion_timestamp),
         ("attendees", JVal.arr (attendees.map jS)),
         ("topics", JVal.arr (topics.map jS)),
         ("tasks", JVal.arr (tasks.map (fun t =>
           JVal.obj [("name", jS t.task_name), ("status", jS (statusOr t.task_status))]))),
         ("projects", JVal.arr (projects.map jS))], st)

/-- The operation `get_meetings_for_member`. -/
def getMeetingsForMember (member_name : String) (st : St) :
    Except String (Obj × St) := do
  let (c, st) ← ensureCache st
  match fuzzyMatchMember c member_name with
  | none => Except.ok (memberNotFound member_name, st)
  | some matched =>
    let meetings :=
      sortMeetingsDesc
        (joinViaR st.db.meeting_members matched.id st.db.meetings MeetingRow.meeting_id)
    Except.ok
      ([("message",
          jS ("Found " ++ toString meetings.length ++ " meeting(s) for " ++ matched.name)),
         ("meetings", JVal.arr (meetings.map (fun m =>
           JVal.obj [("meeting_id", jNat m.meeting_id), ("name", jS m.meeting_name),
             ("type", jOptS m.meeting_type),
             ("date", jMeetingDate m.ingestion_timestamp)])))], st)

/-- Summary truncation of `get_missed_meetings` (200 characters plus an
ellipsis marker). -/
def jMissedSummary : Option String → JVal
  | none => JVal.null
  | some s =>
    if s = "" then jS s
    else if s.data.length > 200 then jS (⟨s.data.take 200⟩ ++ "...") else jS s

/-- The operation `get_missed_meetings`. -/
def getMissedMeetings (did : Nat) (st : St) : Except String (Obj × St) := do
  let (m, st) ← getMemberByDiscordId did st
  match m with
  | none => Except.ok ([("error", jS "Could not find your member record.")], st)
  | some member =>
    let allMeetings :=
      (sortMeetingsDesc st.db.meetings).foldl
        (fun acc mt => upsert mt.meeting_id mt acc) []
    let attended :=
      (st.db.meeting_members.filter (fun p => p.2 == member.id)).map Prod.fst
    let missed := allMeetings.filter (fun e => !attended.contains e.1)
    let rendered := missed.map (fun e =>
      let mt := e.2
      let topics :=
        (joinVia st.db.meeting_topics mt.meeting_id st.db.topics
          TopicRow.topic_id).map TopicRow.topic_name
      JVal.obj
        [("meeting_id", jNat mt.meeting_id), ("name", jS mt.meeting_name),
          ("type", jOptS mt.meeting_type),
          ("date", jMeetingDate mt.ingestion_timestamp),
          ("summary", jMissedSummary mt.meeting_summary),
          ("topics", JVal.arr (topics.map jS))])
    if missed.isEmpty then
      Except.ok
        ([("message", jS ("You (" ++ member.name ++ ") have attended all meetings!")),
           ("missed_meetings", JVal.arr [])], st)
    else
      Except.ok
        ([("message", jS ("You missed " ++ toString missed.length ++ " meeting(s)")),
           ("missed_meetings", JVal.arr rendered)], st)

/-- Name-substring candidates for a project name. -/
def projectMatches (name : String) (db : DB) : List ProjectRow :=
  db.projects.filter (fun p => ilikeSub name p.project_name)

/-- The operation `get_project_info`, including the exact-match retry that
narrows multiple substring hits. -/
def getProjectInfo (project_name : String) (st : St) : Except String (Obj × St) :=
  let step : Sum Obj ProjectRow :=
    match projectMatches project_name st.db with
    | [] => Sum.inl [("error", jS ("Could not find a project matching '" ++ project_name ++ "'"))]
    | [p] => Sum.inr p
    | ps =>
      match ps.find? (fun p => lowerStr p.project_name == lowerStr project_name) with
      | some p => Sum.inr p
      | none =>
        Sum.inl
          [("error", jS "Multiple projects match that name"),
            ("matches", JVal.arr ((ps.take 5).map (fun p =>
              JVal.obj [("id", jNat p.project_id), ("name", jS p.project_name)])))]
  match step with
  | Sum.inl o => Except.ok (o, st)
  | Sum.inr project =>
    let members :=
      joinVia st.db.project_members project.project_id st.db.committee MemberRow.member_id
    let tasks :=
      joinVia st.db.project_tasks project.project_id st.db.tasks TaskRow.task_id
    Except.ok
      ([("project_id", jNat project.project_id), ("name", jS project.project_name),
         ("description", jOptS project.project_description),
         ("team_members", JVal.arr (members.map (fun m =>
           JVal.obj [("name", jS m.member_name), ("role", jOptS m.role)]))),
         ("tasks", JVal.arr (tasks.map (fun t =>
           JVal.obj [("name", jS t.task_name), ("status", jS (statusOr t.task_status)),
             ("deadline", jDeadline t.task_deadline)])))], st)

/-- Description truncation of `get_all_projects`. -/
def jProjDescr : Option String → JVal
  | none => JVal.null
  | some s =>
    if s = "" then jS s
    else if s.data.length > 100 then jS (⟨s.data.take 100⟩ ++ "...") else jS s

/-- The operation `get_all_projects`. -/
def getAllProjects (st : St) : Except String (Obj × St) :=
  let projects := sortProjects st.db.projects
  Except.ok
    ([("message", jS ("Found " ++ toString projects.length ++ " project(s)")),
       ("projects", JVal.arr (projects.map (fun p =>
         JVal.obj
           [("project_id", jNat p.project_id), ("name", jS p.project_name),
             ("description", jProjDescr p.project_description),
             ("member_count",
               jNat (st.db.project_members.filter (fun q => q.1 == p.project_id)).length)])))],
      st)

/-- The operation `get_all_members`. -/
def getAllMembers (st : St) : Except String (Obj × St) :=
  let members := sortMembers st.db.committee
  Except.ok
    ([("message", jS ("Found " ++ toString members.length ++ " member(s)")),
       ("members", JVal.arr (members.map (fun m =>
         JVal.obj
           [("member_id", jNat m.member_id), ("name", jS m.member_name),
             ("role", jOptS m.role), ("subcommittee", jOptS m.subcommittee),
             ("email", jOptS m.email)])))], st)

/-- Name-substring candidates for a topic name. -/
def topicMatches (name : String) (db : DB) : List TopicRow :=
  db.topics.filter (fun t => ilikeSub name t.topic_name)

/-- The operation `get_topic_info` (takes the first substring match). -/
def getTopicInfo (topic_name : String) (st : St) : Except String (Obj × St) :=
  match topicMatches topic_name st.db with
  | [] =>
    Except.ok
      ([("error", jS ("Could not find a topic matching '" ++ topic_name ++ "'"))], st)
  | topic :: _ =>
    let meetings :=
      joinViaR st.db.meeting_topics topic.topic_id st.db.meetings MeetingRow.meeting_id
    Except.ok
      ([("topic_id", jNat topic.topic_id), ("name", jS topic.topic_name),
         ("description", jOptS topic.topic_description),
         ("discussed_in_meetings", JVal.arr (meetings.map (fun m =>
           JVal.obj [("name", jS m.meeting_name), ("type", jOptS m.meeting_type)])))],
        st)

/-- Search description rendering (`p.project_description[:100]`, without an
ellipsis, or `None`). -/
def jSearchDescr : Option String → JVal
  | none => JVal.null
  | some s => if s = "" then JVal.null else jS ⟨s.data.take 100⟩

/-- The operation `search_database`: per-category substring queries capped
at 10 rows, empty categories omitted from the results dict. -/
def searchDatabase (q searchIn : String) (st : St) : Except String (Obj × St) :=
  let inCat := fun (c : String) => searchIn = c || searchIn = "all"
  let members :=
    if inCat "members" then
      (st.db.committee.filter (fun m =>
        ilikeSub q m.member_name || ilikeSubOpt q m.email || ilikeSubOpt q m.role)).take 10
    else []
  let meetings :=
    if inCat "meetings" then
      (st.db.meetings.filter (fun m =>
        ilikeSub q m.meeting_name || ilikeSubOpt q m.meeting_summary)).take 10
    else []
  let projects :=
    if inCat "projects" then
      (st.db.projects.filter (fun p =>
        ilikeSub q p.project_name || ilikeSubOpt q p.project_description)).take 10
    else []
  let tasks :=
    if inCat "tasks" then
      (st.db.tasks.filter (fun t =>
        ilikeSub q t.task_name || ilikeSubOpt q t.task_description)).take 10
    else []
  let topics :=
    if inCat "topics" then
      (st.db.topics.filter (fun t =>
        ilikeSub q t.topic_name || ilikeSubOpt q t.topic_description)).take 10
    else []
  let results : List (String × JVal) :=
    (if members.isEmpty then [] else
      [("members", JVal.arr (members.map (fun m =>
        JVal.obj [("name", jS m.member_name), ("role", jOptS m.role),
          ("email", jOptS m.email)])))])
    ++ (if meetings.isEmpty then [] else
      [("meetings", JVal.arr (meetings.map (fun m =>
        JVal.obj [("name", jS m.meeting_name), ("type", jOptS m.meeting_type)])))])
    ++ (if projects.isEmpty then [] else
      [("projects", JVal.arr (projects.map (fun p =>
        JVal.obj [("name", jS p.project_name),
          ("description", jSearchDescr p.project_description)])))])
    ++ (if tasks.isEmpty then [] else
      [("tasks", JVal.arr (tasks.map (fun t =>
        JVal.obj [("name", jS t.task_name), ("status", jS (statusOr t.task_status))])))])
    ++ (if topics.isEmpty then [] else
      [("topics", JVal.arr (topics.map (fun t =>
        JVal.obj [("name", jS t.topic_name)])))])
  if results.isEmpty then
    Except.ok ([("message", jS ("No results found for '" ++ q ++ "'"))], st)
  else
    Except.ok
      ([("message", jS ("Search results for '" ++ q ++ "'")),
         ("results", JVal.obj results)], st)

/-! ### Edit operations -/

/-- Task resolution by id shared by the edit operations. -/
def taskById (ident : String) (db : DB) : Except String (Option TaskRow) :=
  match pyParseInt ident with
  | none => Except.ok none
  | some i => scalarOneOrNone (db.tasks.filter (fun t => Int.ofNat t.task_id == i))

/-- Name-substring candidates for a task identifier. -/
def taskMatches (ident : String) (db : DB) : List TaskRow :=
  db.tasks.filter (fun t => ilikeSub ident t.task_name)

/-- NotFound envelope for task lookups. -/
def taskNotFound (ident : String) : Obj :=
  [("error", jS ("Could not find a task matching '" ++ ident ++ "'"))]

/-- Ambiguity envelope over task candidates (capped at 5 `(id, name)`
pairs). -/
def taskAmbiguous (msg : String) (ts : List TaskRow) : Obj :=
  [("error", jS msg),
    ("matches", JVal.arr ((ts.take 5).map (fun t =>
      JVal.obj [("id", jNat t.task_id), ("name", jS t.task_name)])))]

/-- The operation `update_task_status`: status validation, id-then-name
resolution, then the single-row update. -/
def updateTaskStatus (ident new_status : String) (st : St) :
    Except String (Obj × St) := do
  if new_status ≠ "complete" ∧ new_status ≠ "incomplete" then
    Except.ok ([("error", jS "Status must be 'complete' or 'incomplete'")], st)
  else do
    let byId ← taskById ident st.db
    let step : Sum Obj TaskRow :=
      match byId with
      | some t => Sum.inr t
      | none =>
        match taskMatches ident st.db with
        | [t] => Sum.inr t
        | [] => Sum.inl (taskNotFound ident)
        | ts => Sum.inl (taskAmbiguous "Multiple tasks match that name. Please be more specific." ts)
    match step with
    | Sum.inl o => Except.ok (o, st)
    | Sum.inr task =>
      let old := statusOr task.task_status
      let db' :=
        { st.db with
            tasks := st.db.tasks.map (fun t =>
              if t.task_id == task.task_id then { t with task_status := some new_status } else t) }
      Except.ok
        ([("success", JVal.b true),
           ("message",
             jS ("Task '" ++ task.task_name ++ "' status updated from '" ++ old
               ++ "' to '" ++ new_status ++ "'")),
           ("task_id", jNat task.task_id), ("task_name", jS task.task_name),
           ("old_status", jS old), ("new_status", jS new_status)],
          { st with db := db' })

/-- The operation `assign_member_to_task`: member resolution, id-then-name
task resolution, duplicate-pair guard, then the junction insert. -/
def assignMemberToTask (ident member_name : String) (st : St) :
    Except String (Obj × St) := do
  let (c, st) ← ensureCache st
  match fuzzyMatchMember c member_name with
  | none => Except.ok (memberNotFound member_name, st)
  | some m => do
    let byId ← taskById ident st.db
    let step : Sum Obj TaskRow :=
      match byId with
      | some t => Sum.inr t
      | none =>
        match taskMatches ident st.db with
        | [t] => Sum.inr t
        | [] => Sum.inl (taskNotFound ident)
        | ts => Sum.inl (taskAmbiguous "Multiple tasks match. Please be more specific." ts)
    match step with
    | Sum.inl o => Except.ok (o, st)
    | Sum.inr task => do
      let existing ←
        scalarOneOrNone (st.db.task_members.filter (fun p =>
          p.1 == task.task_id && p.2 == m.id))
      match existing with
      | some _ =>
        Except.ok
          ([("error", jS (m.name ++ " is already assigned to '" ++ task.task_name ++ "'"))],
            st)
      | none =>
        Except.ok
          ([("success", JVal.b true),
             ("message", jS ("Assigned " ++ m.name ++ " to task '" ++ task.task_name ++ "'")),
             ("task_id", jNat task.task_id), ("task_name", jS task.task_name),
             ("member_name", jS m.name)],
            { st with db :=
              { st.db with task_members := st.db.task_members ++ [(task.task_id, m.id)] } })

/-- The operation `remove_member_from_task`: unlike the other task
resolutions, multiple name matches simply leave the task unresolved (there
is no ambiguity branch), and the `DELETE` is committed before the
zero-rows check. -/
def removeMemberFromTask (ident member_name : String) (st : St) :
    Except String (Obj × St) := do
  let (c, st) ← ensureCache st
  match fuzzyMatchMember c member_name with
  | none => Except.ok (memberNotFound member_name, st)
  | some m => do
    let byId ← taskById ident st.db
    let task? : Option TaskRow :=
      match byId with
      | some t => some t
      | none =>
        match taskMatches ident st.db with
        | [t] => some t
        | _ => none
    match task? with
    | none => Except.ok (taskNotFound ident, st)
    | some task =>
      let hit := fun (p : Nat × Nat) => p.1 == task.task_id && p.2 == m.id
      let rowcount := (st.db.task_members.filter hit).length
      let st' :=
        { st with db :=
          { st.db with task_members := st.db.task_members.filter (fun p => !hit p) } }
      if rowcount = 0 then
        Except.ok
          ([("error", jS (m.name ++ " was not assigned to '" ++ task.task_name ++ "'"))], st')
      else
        Except.ok
          ([("success", JVal.b true),
             ("message", jS ("Removed " ++ m.name ++ " from task '" ++ task.task_name ++ "'"))],
            st')

/-! ### Creation operations -/

/-- Assignee resolution loop of `create_task` / `create_project`: resolves
names in order, stopping at the first unresolved one. -/
def resolveLoop (c : Caches) : List String → Sum String (List CMember)
  | [] => Sum.inr []
  | n :: rest =>
    match fuzzyMatchMember c n with
    | none => Sum.inl n
    | some m =>
      match resolveLoop c rest with
      | Sum.inl bad => Sum.inl bad
      | Sum.inr l => Sum.inr (m :: l)

/-- Deadline preprocessing of `create_task`: absent, empty or `"null"`
mean no deadline; anything else must parse as `%Y-%m-%d`. -/
def parseDeadline : Option String → Sum Unit (Option Date)
  | none => Sum.inr none
  | some d =>
    if d = "" then Sum.inr none
    else if lowerStr d = "null" then Sum.inr none
    else
      match parseYMD d with
      | some dt => Sum.inr (some dt)
      | none => Sum.inl ()

/-- Comma-separated member names of the creation success messages. -/
def joinNames : List String → String
  | [] => ""
  | [n] => n
  | n :: rest => n ++ ", " ++ joinNames rest

/-- The operation `create_task`: deadline validation, all-or-nothing
assignee resolution, optional self-assignment (de-duplicated by id), then
one transaction inserting the task row and its junction rows. -/
def createTask (task_name : String) (task_description : Option String)
    (deadline : Option String) (assigned_to : Option (List String))
    (assign_to_current_user : Bool) (current_user_discord_id : Option Nat)
    (st : St) : Except String (Obj × St) := do
  let (c, st) ← ensureCache st
  match parseDeadline deadline with
  | Sum.inl _ =>
    Except.ok ([("error", jS "Invalid deadline format. Please use YYYY-MM-DD")], st)
  | Sum.inr task_deadline =>
    let names := match assigned_to with | some l => l | none => []
    match resolveLoop c names with
    | Sum.inl bad => Except.ok (memberNotFound bad, st)
    | Sum.inr matched => do
      let withSelf : Sum Obj (List CMember) × St ←
        (match assign_to_current_user, current_user_discord_id with
          | true, some did => do
            let (cur, st) ← getMemberByDiscordId did st
            match cur with
            | none =>
              Except.ok
                (⟨Sum.inl [("error", jS "Could not find your member record to assign this task. Please contact an admin to link your Discord account.")], st⟩ :
                  (Sum Obj (List CMember) × St))
            | some cur =>
              if matched.any (fun m => m.id == cur.id) then
                Except.ok ⟨Sum.inr matched, st⟩
              else Except.ok ⟨Sum.inr (matched ++ [cur]), st⟩
          | _, _ => Except.ok ⟨Sum.inr matched, st⟩)
      match withSelf with
      | ⟨Sum.inl o, st⟩ => Except.ok (o, st)
      | ⟨Sum.inr members, st⟩ =>
        let tid := st.db.next_task_id
        let row : TaskRow :=
          ⟨tid, task_name, task_description, task_deadline, some "incomplete"⟩
        let db' :=
          { st.db with
              tasks := st.db.tasks ++ [row],
              task_members := st.db.task_members ++ members.map (fun m => (tid, m.id)),
              next_task_id := tid + 1 }
        Except.ok
          ([("success", JVal.b true),
             ("message",
               jS ("Created task '" ++ task_name ++ "'"
                 ++ (if members.isEmpty then ""
                   else " and assigned to " ++ joinNames (members.map CMember.name)))),
             ("task_id", jNat tid), ("task_name", jS task_name),
             ("deadline",
               match task_deadline with
               | some dt => jS (dateStr dt)
               | none => JVal.null),
             ("assigned_to", JVal.arr (members.map (fun m => jS m.name)))],
            { st with db := db' })

/-- Existing-name candidates of `create_project`'s duplicate check: the
supplied name is used as the `ILIKE` pattern itself (no `%` wrapping), so
`_`/`%` inside it act as wildcards. -/
def projectNameHits (name : String) (db : DB) : List ProjectRow :=
  db.projects.filter (fun p => ilike name p.project_name)

/-- The operation `create_project`. -/
def createProject (project_name : String) (project_description : Option String)
    (team_members : Option (List String)) (st : St) :
    Except String (Obj × St) := do
  let (c, st) ← ensureCache st
  let names := match team_members with | some l => l | none => []
  match resolveLoop c names with
  | Sum.inl bad => Except.ok (memberNotFound bad, st)
  | Sum.inr matched => do
    let existing ← scalarOneOrNone (projectNameHits project_name st.db)
    match existing with
    | some _ =>
      Except.ok
        ([("error", jS ("A project named '" ++ project_name ++ "' already exists"))], st)
    | none =>
      let pid := st.db.next_project_id
      let db' :=
        { st.db with
            projects := st.db.projects ++ [⟨pid, project_name, project_description⟩],
            project_members :=
              st.db.project_members ++ matched.map (fun m => (pid, m.id)),
            next_project_id := pid + 1 }
      Except.ok
        ([("success", JVal.b true),
           ("message",
             jS ("Created project '" ++ project_name ++ "'"
               ++ (if matched.isEmpty then ""
                 else " with team: " ++ joinNames (matched.map CMember.name)))),
           ("project_id", jNat pid), ("project_name", jS project_name),
           ("team_members", JVal.arr (matched.map (fun m => jS m.name)))],
          { st with db := db' })

/-- The operation `add_member_to_project` (its ambiguity envelope carries
names only). -/
def addMemberToProject (project_name member_name : String) (st : St) :
    Except String (Obj × St) := do
  let (c, st) ← ensureCache st
  match fuzzyMatchMember c member_name with
  | none => Except.ok (memberNotFound member_name, st)
  | some m =>
    match projectMatches project_name st.db with
    | [] =>
      Except.ok
        ([("error", jS ("Could not find a project matching '" ++ project_name ++ "'"))], st)
    | [project] => do
      let existing ←
        scalarOneOrNone (st.db.project_members.filter (fun p =>
          p.1 == project.project_id && p.2 == m.id))
      match existing with
      | some _ =>
        Except.ok
          ([("error",
              jS (m.name ++ " is already a member of '" ++ project.project_name ++ "'"))], st)
      | none =>
        Except.ok
          ([("success", JVal.b true),
             ("message",
               jS ("Added " ++ m.name ++ " to project '" ++ project.project_name ++ "'"))],
            { st with db :=
              { st.db with project_members :=
                  st.db.project_members ++ [(project.project_id, m.id)] } })
    | ps =>
      Except.ok
        ([("error", jS "Multiple projects match. Please be more specific."),
           ("matches", JVal.arr ((ps.take 5).map (fun p => jS p.project_name)))], st)

/-- Existing-name candidates of `create_topic`'s duplicate check (same
wildcard caveat as `create_project`). -/
def topicNameHits (name : String) (db : DB) : List TopicRow :=
  db.topics.filter (fun t => ilike name t.topic_name)

/-- The operation `create_topic`. -/
def createTopic (topic_name : String) (topic_description : Option String)
    (st : St) : Except String (Obj × St) := do
  let existing ← scalarOneOrNone (topicNameHits topic_name st.db)
  match existing with
  | some _ =>
    Except.ok
      ([("error", jS ("A topic named '" ++ topic_name ++ "' already exists"))], st)
  | none =>
    let tid := st.db.next_topic_id
    Except.ok
      ([("success", JVal.b true),
         ("message", jS ("Created topic '" ++ topic_name ++ "'")),
         ("topic_id", jNat tid), ("topic_name", jS topic_name)],
        { st with db :=
          { st.db with
              topics := st.db.topics ++ [⟨tid, topic_name, topic_description⟩],
              next_topic_id := tid + 1 } })

/-- The operation `add_topic_to_meeting`: meeting resolution, find-or-create
of the topic (a substring lookup via `scalar_one_or_none`), existing-link
guard, then one transaction; when the guard trips, the uncommitted topic
insert is rolled back. -/
def addTopicToMeeting (ident topic_name : String) (st : St) :
    Except String (Obj × St) := do
  let byId ← meetingById ident st.db
  let step : Sum Obj MeetingRow :=
    match byId with
    | some m => Sum.inr m
    | none =>
      match meetingMatches ident st.db with
      | [m] => Sum.inr m
      | [] => Sum.inl [("error", jS ("Could not find a meeting matching '" ++ ident ++ "'"))]
      | ms =>
        Sum.inl
          [("error", jS "Multiple meetings match. Please be more specific."),
            ("matches", JVal.arr ((ms.take 5).map (fun m => jS m.meeting_name)))]
  match step with
  | Sum.inl o => Except.ok (o, st)
  | Sum.inr meeting => do
    let found ← scalarOneOrNone (topicMatches topic_name st.db)
    let (topic, dbWithTopic) :=
      match found with
      | some t => (t, st.db)
      | none =>
        let tid := st.db.next_topic_id
        (⟨tid, topic_name, none⟩,
          { st.db with
              topics := st.db.topics ++ [(⟨tid, topic_name, none⟩ : TopicRow)],
              next_topic_id := tid + 1 })
    let existing ←
      scalarOneOrNone (st.db.meeting_topics.filter (fun p =>
        p.1 == meeting.meeting_id && p.2 == topic.topic_id))
    match existing with
    | some _ =>
      Except.ok
        ([("error",
            jS ("Topic '" ++ topic.topic_name ++ "' is already linked to meeting '"
              ++ meeting.meeting_name ++ "'"))], st)
    | none =>
      Except.ok
        ([("success", JVal.b true),
           ("message",
             jS ("Linked topic '" ++ topic.topic_name ++ "' to meeting '"
               ++ meeting.meeting_name ++ "'"))],
          { st with db :=
            { dbWithTopic with meeting_topics :=
                dbWithTopic.meeting_topics ++ [(meeting.meeting_id, topic.topic_id)] } })

/-! ### The tool router (`ToolExecutor`) -/

/-- A value in the argument bag the model produces. -/
inductive ArgVal where
  | s : String → ArgVal
  | list : List String → ArgVal
  | b : Bool → ArgVal
  | null : ArgVal
deriving Repr, DecidableEq

/-- Required argument access `args[k]`: a missing key raises `KeyError`. -/
def argReq (args : List (String × ArgVal)) (k : String) : Except String ArgVal :=
  match List.lookup k args with
  | some v => Except.ok v
  | none => Except.error (keyErrMsg k)

/-- A required string argument; a present value of another shape raises a
dynamic error downstream (abstracted message). -/
def argReqStr (args : List (String × ArgVal)) (k : String) : Except String String := do
  match ← argReq args k with
  | ArgVal.s v => Except.ok v
  | _ => Except.error badArgMsg

/-- Optional string argument with a default (`args.get(k, dflt)`). -/
def argOptStr (args : List (String × ArgVal)) (k dflt : String) :
    Except String String :=
  match List.lookup k args with
  | none => Except.ok dflt
  | some (ArgVal.s v) => Except.ok v
  | some _ => Except.error badArgMsg

/-- Optional nullable string argument (`args.get(k)`; JSON `null` and an
absent key both give `None`). -/
def argOptStrN (args : List (String × ArgVal)) (k : String) :
    Except String (Option String) :=
  match List.lookup k args with
  | none => Except.ok none
  | some ArgVal.null => Except.ok none
  | some (ArgVal.s v) => Except.ok (some v)
  | some _ => Except.error badArgMsg

/-- Optional list-of-names argument (`args.get(k)`). -/
def argOptList (args : List (String × ArgVal)) (k : String) :
    Except String (Option (List String)) :=
  match List.lookup k args with
  | none => Except.ok none
  | some ArgVal.null => Except.ok none
  | some (ArgVal.list l) => Except.ok (some l)
  | some _ => Except.error badArgMsg

/-- The truthiness of `args.get("assign_to_current_user", False)`. -/
def argFlag (args : List (String × ArgVal)) (k : String) : Bool :=
  match List.lookup k args with
  | none => false
  | some (ArgVal.b b) => b
  | some ArgVal.null => false
  | some (ArgVal.s v) => v ≠ ""
  | some (ArgVal.list l) => !l.isEmpty

/-- Python truthiness of `user_discord_id` (`None` and `0` are falsy). -/
def uidFalsy : Option Nat → Bool
  | none => true
  | some 0 => true
  | some _ => false

/-- The fixed unidentified-caller envelope. -/
def cantIdentify : Obj :=
  [("error", jS "Cannot identify you. Your Discord account may not be linked.")]

/-- ISO rendering of the abstracted server clock. -/
def tsIso (n : Nat) : String := toString n

/-- Time-of-day rendering of the abstracted server clock. -/
def tsTime (n : Nat) : String := toString n

/-- The storage-free tool `get_current_datetime`. -/
def getCurrentDatetime (st : St) : Except String (Obj × St) :=
  Except.ok
    ([("current_datetime_iso", jS (tsIso st.now)),
       ("current_date", jS (tsDate st.now)),
       ("current_time", jS (tsTime st.now)),
       ("timezone", jS "server-local")], st)

/-- The closed catalog of recognized tool names, in dispatch order. -/
def knownTools : List String :=
  ["get_my_tasks", "get_my_identity", "get_current_datetime", "get_all_tasks",
    "get_member_info", "get_meeting_info", "get_meetings_for_member",
    "get_missed_meetings", "get_project_info", "get_all_projects",
    "get_all_members", "get_topic_info", "search_database",
    "update_task_status", "assign_member_to_task", "remove_member_from_task",
    "create_task", "create_project", "add_member_to_project", "create_topic",
    "add_topic_to_meeting"]

/-- The dispatch chain `ToolExecutor._call_tool`. -/
def callTool (name : String) (args : List (String × ArgVal))
    (uid : Option Nat) (st : St) : Except String (Obj × St) :=
  if name = "get_my_tasks" then
    if uidFalsy uid then Except.ok (cantIdentify, st)
    else getMyTasks (uid.getD 0) st
  else if name = "get_my_identity" then
    if uidFalsy uid then Except.ok (cantIdentify, st)
    else getMyIdentity (uid.getD 0) st
  else if name = "get_current_datetime" then getCurrentDatetime st
  else if name = "get_all_tasks" then do
    getAllTasks (← argOptStr args "status_filter" "all") st
  else if name = "get_member_info" then do
    getMemberInfo (← argReqStr args "member_name") st
  else if name = "get_meeting_info" then do
    getMeetingInfo (← argReqStr args "meeting_identifier") st
  else if name = "get_meetings_for_member" then do
    getMeetingsForMember (← argReqStr args "member_name") st
  else if name = "get_missed_meetings" then
    if uidFalsy uid then Except.ok (cantIdentify, st)
    else getMissedMeetings (uid.getD 0) st
  else if name = "get_project_info" then do
    getProjectInfo (← argReqStr args "project_name") st
  else if name = "get_all_projects" then getAllProjects st
  else if name = "get_all_members" then getAllMembers st
  else if name = "get_topic_info" then do
    getTopicInfo (← argReqStr args "topic_name") st
  else if name = "search_database" then do
    searchDatabase (← argReqStr args "search_query")
      (← argOptStr args "search_in" "all") st
  else if name = "update_task_status" then do
    updateTaskStatus (← argReqStr args "task_identifier")
      (← argReqStr args "new_status") st
  else if name = "assign_member_to_task" then do
    assignMemberToTask (← argReqStr args "task_identifier")
      (← argReqStr args "member_name") st
  else if name = "remove_member_from_task" then do
    removeMemberFromTask (← argReqStr args "task_identifier")
      (← argReqStr args "member_name") st
  else if name = "create_task" then do
    createTask (← argReqStr args "task_name") (← argOptStrN args "task_description")
      (← argOptStrN args "deadline") (← argOptList args "assigned_to")
      (argFlag args "assign_to_current_user") uid st
  else if name = "create_project" then do
    createProject (← argReqStr args "project_name")
      (← argOptStrN args "project_description")
      (← argOptList args "team_members") st
  else if name = "add_member_to_project" then do
    addMemberToProject (← argReqStr args "project_name")
      (← argReqStr args "member_name") st
  else if name = "create_topic" then do
    createTopic (← argReqStr args "topic_name")
      (← argOptStrN args "topic_description") st
  else if name = "add_topic_to_meeting" then do
    addTopicToMeeting (← argReqStr args "meeting_identifier")
      (← argReqStr args "topic_name") st
  else Except.ok ([("error", jS ("Unknown tool: " ++ name))], st)

/-- The failure envelope of the router's catch-all. -/
def failEnvelope (e : String) : Obj :=
  [("error", jS ("Tool execution failed: " ++ e))]

/-- The boundary `ToolExecutor.execute`: the dispatched call is wrapped, a
raised exception becomes the failure envelope (and its transaction was
rolled back, leaving the state unchanged).  Serialization of the returned
dict (`json.dumps`, which succeeds on every envelope the operations build)
is abstracted away: the envelope itself is returned. -/
def executeTool (name : String) (args : List (String × ArgVal))
    (uid : Option Nat) (st : St) : Obj × St :=
  match callTool name args uid st with
  | Except.ok r => r
  | Except.error e => (failEnvelope e, st)

/-! ## Lemmas about the difflib embedding -/

namespace Difflib

/-- Generic fold-invariant helper. -/
theorem foldl_preserve {α β : Type} {P : α → Prop} {f : α → β → α} :
    ∀ {l : List β} {init : α}, P init →
      (∀ acc x, x ∈ l → P acc → P (f acc x)) → P (l.foldl f init)
  | [], _, h, _ => h
  | x :: l, init, h, hstep => by
    simpa using foldl_preserve (l := l) (hstep init x (by simp) h)
      (fun acc y hy => hstep acc y (by simp [hy]))

/-- Run lengths never exceed the number of processed rows. -/
theorem jstate_le (a b : List Char) (blo bhi alo : Nat) :
    ∀ t j, jstate a b blo bhi alo t j ≤ t := by
  intro t
  induction t with
  | zero => intro j; simp [jstate]
  | succ t ih =>
    intro j
    simp only [jstate, rowJ2]
    split
    · simp only [newLen]
      split
      · omega
      · have := ih (j - 1)
        omega
    · omega

/-- A positive run at `(t+1, j)` comes from column `j` of row `alo + t`. -/
theorem jstate_pos (a b : List Char) (blo bhi alo : Nat) (t j : Nat)
    (h : jstate a b blo bhi alo (t + 1) j ≠ 0) :
    (cols a b blo bhi (alo + t)).contains j = true ∧
      jstate a b blo bhi alo (t + 1) j =
        newLen (jstate a b blo bhi alo t) j := by
  revert h
  simp only [jstate, rowJ2]
  split
  · exact fun _ => ⟨by assumption, rfl⟩
  · intro h; exact absurd rfl h

/-- Facts about a visited column. -/
theorem cols_mem (a b : List Char) (blo bhi i j : Nat)
    (h : j ∈ cols a b blo bhi i) :
    blo ≤ j ∧ j < bhi ∧ j < b.length ∧ b.getD j dChar = a.getD i dChar ∧
      popular b (b.getD j dChar) = false := by
  simp only [cols, List.mem_filter, Bool.and_eq_true, decide_eq_true_eq] at h
  obtain ⟨hj, hblo, hbhi⟩ := h
  have hb2j := hj
  simp only [b2j] at hb2j
  split at hb2j
  · simp at hb2j
  · rename_i hnp
    simp only [positions, List.mem_filter, List.mem_range, beq_iff_eq] at hb2j
    refine ⟨hblo, hbhi, hb2j.1, hb2j.2, ?_⟩
    rw [hb2j.2]
    simpa using hnp

/-- Columns are visited in strictly ascending order. -/
theorem cols_sorted (a b : List Char) (blo bhi i : Nat) :
    (cols a b blo bhi i).Pairwise (· < ·) := by
  apply List.Pairwise.filter
  simp only [b2j]
  split
  · simp
  · exact (List.pairwise_lt_range _).filter _

/-- The left end of a positive run stays within `[blo, bhi)`. -/
theorem jstate_jbound (a b : List Char) (blo bhi alo : Nat) :
    ∀ t j, 1 ≤ jstate a b blo bhi alo t j →
      blo + jstate a b blo bhi alo t j ≤ j + 1 ∧ j < bhi := by
  intro t
  induction t with
  | zero => intro j h; simp [jstate] at h
  | succ t ih =>
    intro j h
    obtain ⟨hc, hval⟩ := jstate_pos a b blo bhi alo t j (by omega)
    have hmem : j ∈ cols a b blo bhi (alo + t) := by
      simpa using hc
    obtain ⟨hblo, hbhi, -⟩ := cols_mem a b blo bhi (alo + t) j hmem
    refine ⟨?_, hbhi⟩
    rw [hval]
    simp only [newLen]
    split
    · omega
    · rcases Nat.eq_zero_or_pos (jstate a b blo bhi alo t (j - 1)) with h0 | h1
      · rw [h0]; omega
      · have := (ih (j - 1) h1).1
        omega

/-- Content of a run: the matched characters agree, walking back from the
run's right end `(alo + t - 1, j)`. -/
theorem jstate_content (a b : List Char) (blo bhi alo : Nat) :
    ∀ t j s, s < jstate a b blo bhi alo t j →
      a.getD (alo + t - 1 - s) dChar = b.getD (j - s) dChar := by
  intro t
  induction t with
  | zero => intro j s h; simp [jstate] at h
  | succ t ih =>
    intro j s h
    obtain ⟨hc, hval⟩ := jstate_pos a b blo bhi alo t j (by omega)
    have hmem : j ∈ cols a b blo bhi (alo + t) := by simpa using hc
    obtain ⟨-, -, -, hchar, -⟩ := cols_mem a b blo bhi (alo + t) j hmem
    rw [hval] at h
    simp only [newLen] at h
    match s with
    | 0 =>
      simpa [Nat.add_sub_cancel] using hchar.symm
    | s + 1 =>
      split at h
      · omega
      · have hs : s < jstate a b blo bhi alo t (j - 1) := by omega
        have := ih (j - 1) s hs
        have hj1 : 1 ≤ j := by omega
        have e1 : alo + (t + 1) - 1 - (s + 1) = alo + t - 1 - s := by omega
        have e2 : j - (s + 1) = j - 1 - s := by omega
        rw [e1, e2]
        exact this

/-- Facts about the run value `newLen` at a visited column. -/
theorem newLen_run (a b : List Char) (blo bhi alo t j : Nat)
    (hj : j ∈ cols a b blo bhi (alo + t)) :
    1 ≤ newLen (jstate a b blo bhi alo t) j ∧
      newLen (jstate a b blo bhi alo t) j ≤ t + 1 ∧
      blo + newLen (jstate a b blo bhi alo t) j ≤ j + 1 ∧ j < bhi ∧
      ∀ s < newLen (jstate a b blo bhi alo t) j,
        a.getD (alo + t - s) dChar = b.getD (j - s) dChar := by
  obtain ⟨hblo, hbhi, hblen, hchar, -⟩ := cols_mem a b blo bhi (alo + t) j hj
  refine ⟨by simp [newLen], ?_, ?_, hbhi, ?_⟩
  · simp only [newLen]
    split
    · omega
    · have := jstate_le a b blo bhi alo t (j - 1); omega
  · simp only [newLen]
    split
    · omega
    · rcases Nat.eq_zero_or_pos (jstate a b blo bhi alo t (j - 1)) with h0 | h1
      · rw [h0]; omega
      · have := (jstate_jbound a b blo bhi alo t (j - 1) h1).1
        omega
  · intro s hs
    simp only [newLen] at hs
    match s with
    | 0 => simpa using hchar.symm
    | s + 1 =>
      split at hs
      · omega
      · rename_i hj0
        have h1 : s < jstate a b blo bhi alo t (j - 1) := by omega
        have := jstate_content a b blo bhi alo t (j - 1) s h1
        have hj1 : 1 ≤ j := by omega
        have e1 : alo + t - (s + 1) = alo + t - 1 - s := by
          have hle := jstate_le a b blo bhi alo t (j - 1)
          omega
        have e2 : j - (s + 1) = j - 1 - s := by omega
        rw [e1, e2]
        exact this

/-- Invariant of the best block after `t` rows: either untouched, or a
real in-bounds matching block. -/
def BInv (a b : List Char) (alo blo bhi t : Nat) (blk : Block) : Prop :=
  blk = ⟨alo, blo, 0⟩ ∨
    (1 ≤ blk.size ∧ alo ≤ blk.bi ∧ blk.bi + blk.size ≤ alo + t ∧
      blo ≤ blk.bj ∧ blk.bj + blk.size ≤ bhi ∧
      ∀ s < blk.size, a.getD (blk.bi + s) dChar = b.getD (blk.bj + s) dChar)

/-- The invariant is monotone in the row count. -/
theorem BInv_mono (a b : List Char) (alo blo bhi t : Nat) (blk : Block)
    (h : BInv a b alo blo bhi t blk) : BInv a b alo blo bhi (t + 1) blk := by
  rcases h with h | h
  · exact Or.inl h
  · exact Or.inr ⟨h.1, h.2.1, by omega, h.2.2.2.1, h.2.2.2.2.1, h.2.2.2.2.2⟩

/-- The row scan maintains the best-block invariant. -/
theorem bstate_inv (a b : List Char) (alo blo bhi : Nat) :
    ∀ t, BInv a b alo blo bhi t (bstate a b alo blo bhi t) := by
  intro t
  induction t with
  | zero => exact Or.inl rfl
  | succ t ih =>
    show BInv a b alo blo bhi (t + 1)
      (rowBest (alo + t) (jstate a b blo bhi alo t) (cols a b blo bhi (alo + t))
        (bstate a b alo blo bhi t))
    apply foldl_preserve (BInv_mono a b alo blo bhi t _ ih)
    intro acc j hj hacc
    dsimp only
    split
    · obtain ⟨hk1, hkt, hkj, hjbhi, hcont⟩ := newLen_run a b blo bhi alo t j hj
      set k := newLen (jstate a b blo bhi alo t) j with hkdef
      refine Or.inr ⟨hk1, ?_, ?_, ?_, ?_, ?_⟩
      · show alo ≤ alo + t + 1 - k
        omega
      · show alo + t + 1 - k + k ≤ alo + (t + 1)
        omega
      · show blo ≤ j + 1 - k
        omega
      · show j + 1 - k + k ≤ bhi
        omega
      · intro s hs
        have hs' : s < k := hs
        show a.getD (alo + t + 1 - k + s) dChar = b.getD (j + 1 - k + s) dChar
        have e1 : alo + t + 1 - k + s = alo + t - (k - 1 - s) := by omega
        have e2 : j + 1 - k + s = j - (k - 1 - s) := by omega
        rw [e1, e2]
        exact hcont (k - 1 - s) (by omega)
    · exact hacc

/-- In-bounds matching block predicate used after the extensions. -/
def PBlock (a b : List Char) (alo ahi blo bhi : Nat) (blk : Block) : Prop :=
  alo ≤ blk.bi ∧ blk.bi + blk.size ≤ ahi ∧ blo ≤ blk.bj ∧ blk.bj + blk.size ≤ bhi ∧
    ∀ s < blk.size, a.getD (blk.bi + s) dChar = b.getD (blk.bj + s) dChar

/-- The leftward extension preserves the block predicate. -/
theorem extLeft_pb (a b : List Char) (alo ahi blo bhi : Nat) :
    ∀ fuel blk, PBlock a b alo ahi blo bhi blk →
      PBlock a b alo ahi blo bhi (extLeft a b alo blo fuel blk) := by
  intro fuel
  induction fuel with
  | zero => intro blk h; exact h
  | succ fuel ih =>
    intro blk h
    simp only [extLeft]
    split
    · rename_i hguard
      simp only [Bool.and_eq_true, decide_eq_true_eq, beq_iff_eq] at hguard
      apply ih
      obtain ⟨⟨hbi, hbj⟩, hchar⟩ := hguard
      obtain ⟨p1, p2, p3, p4, p5⟩ := h
      refine ⟨?_, ?_, ?_, ?_, ?_⟩
      · show alo ≤ blk.bi - 1
        omega
      · show blk.bi - 1 + (blk.size + 1) ≤ ahi
        omega
      · show blo ≤ blk.bj - 1
        omega
      · show blk.bj - 1 + (blk.size + 1) ≤ bhi
        omega
      · intro s hs
        have hs' : s < blk.size + 1 := hs
        show a.getD (blk.bi - 1 + s) dChar = b.getD (blk.bj - 1 + s) dChar
        match s with
        | 0 => simpa using hchar
        | s + 1 =>
          have e1 : blk.bi - 1 + (s + 1) = blk.bi + s := by omega
          have e2 : blk.bj - 1 + (s + 1) = blk.bj + s := by omega
          rw [e1, e2]
          exact p5 s (by omega)
    · exact h

/-- The rightward extension preserves the block predicate. -/
theorem extRight_pb (a b : List Char) (alo ahi blo bhi : Nat) :
    ∀ fuel blk, PBlock a b alo ahi blo bhi blk →
      PBlock a b alo ahi blo bhi (extRight a b ahi bhi fuel blk) := by
  intro fuel
  induction fuel with
  | zero => intro blk h; exact h
  | succ fuel ih =>
    intro blk h
    simp only [extRight]
    split
    · rename_i hguard
      simp only [Bool.and_eq_true, decide_eq_true_eq, beq_iff_eq] at hguard
      apply ih
      obtain ⟨⟨hbi, hbj⟩, hchar⟩ := hguard
      obtain ⟨p1, p2, p3, p4, p5⟩ := h
      refine ⟨p1, ?_, p3, ?_, ?_⟩
      · show blk.bi + (blk.size + 1) ≤ ahi
        omega
      · show blk.bj + (blk.size + 1) ≤ bhi
        omega
      · intro s hs
        have hs' : s < blk.size + 1 := hs
        show a.getD (blk.bi + s) dChar = b.getD (blk.bj + s) dChar
        rcases Nat.lt_or_ge s blk.size with hlt | hge
        · exact p5 s hlt
        · have hse : s = blk.size := by omega
          subst hse
          exact hchar
    · exact h

/-- The block returned by `find_longest_match` is an in-bounds matching
block. -/
theorem flm_pb (a b : List Char) (alo ahi blo bhi : Nat)
    (h1 : alo ≤ ahi) (h2 : blo ≤ bhi) :
    PBlock a b alo ahi blo bhi (flm a b alo ahi blo bhi) := by
  have hbase : PBlock a b alo ahi blo bhi (bstate a b alo blo bhi (ahi - alo)) := by
    rcases bstate_inv a b alo blo bhi (ahi - alo) with h | h
    · rw [h]
      exact ⟨Nat.le_refl _, by simpa using h1, Nat.le_refl _, by simpa using h2, by simp⟩
    · exact ⟨h.2.1, by omega, h.2.2.2.1, h.2.2.2.2.1, h.2.2.2.2.2⟩
  exact extRight_pb a b alo ahi blo bhi _ _ (extLeft_pb a b alo ahi blo bhi _ _ hbase)

/-- The total matched size is at most each range's size. -/
theorem mTotal_le (a b : List Char) :
    ∀ fuel alo ahi blo bhi, alo ≤ ahi → blo ≤ bhi →
      mTotal a b fuel alo ahi blo bhi ≤ ahi - alo ∧
        mTotal a b fuel alo ahi blo bhi ≤ bhi - blo := by
  intro fuel
  induction fuel with
  | zero => intro alo ahi blo bhi _ _; simp [mTotal]
  | succ fuel ih =>
    intro alo ahi blo bhi h1 h2
    simp only [mTotal]
    split
    · omega
    · rename_i hk
      obtain ⟨hbi, hik, hbj, hjk, -⟩ := flm_pb a b alo ahi blo bhi h1 h2
      set blk := flm a b alo ahi blo bhi
      have hL := ih alo blk.bi blo blk.bj (by omega) (by omega)
      have hR := ih (blk.bi + blk.size) ahi (blk.bj + blk.size) bhi (by omega) (by omega)
      omega

/-- A full-size total forces the two ranges to be equal character for
character. -/
theorem mTotal_full (a b : List Char) :
    ∀ fuel alo ahi blo bhi, alo ≤ ahi → blo ≤ bhi →
      mTotal a b fuel alo ahi blo bhi = ahi - alo →
      mTotal a b fuel alo ahi blo bhi = bhi - blo →
      ∀ s < ahi - alo, a.getD (alo + s) dChar = b.getD (blo + s) dChar := by
  intro fuel
  induction fuel with
  | zero =>
    intro alo ahi blo bhi _ _ hA _ s hs
    simp only [mTotal] at hA
    omega
  | succ fuel ih =>
    intro alo ahi blo bhi h1 h2 hA hB s hs
    simp only [mTotal] at hA hB
    split at hA
    · omega
    · rename_i hk
      split at hB
      · omega
      · obtain ⟨hbi, hik, hbj, hjk, hcont⟩ := flm_pb a b alo ahi blo bhi h1 h2
        set blk := flm a b alo ahi blo bhi
        have hL := mTotal_le a b fuel alo blk.bi blo blk.bj (by omega) (by omega)
        have hR := mTotal_le a b fuel (blk.bi + blk.size) ahi (blk.bj + blk.size) bhi
          (by omega) (by omega)
        have hLA : mTotal a b fuel alo blk.bi blo blk.bj = blk.bi - alo := by omega
        have hLB : mTotal a b fuel alo blk.bi blo blk.bj = blk.bj - blo := by omega
        have hRA : mTotal a b fuel (blk.bi + blk.size) ahi (blk.bj + blk.size) bhi
            = ahi - (blk.bi + blk.size) := by omega
        have hRB : mTotal a b fuel (blk.bi + blk.size) ahi (blk.bj + blk.size) bhi
            = bhi - (blk.bj + blk.size) := by omega
        have ihL := ih alo blk.bi blo blk.bj (by omega) (by omega) hLA hLB
        have ihR := ih (blk.bi + blk.size) ahi (blk.bj + blk.size) bhi
          (by omega) (by omega) hRA hRB
        rcases Nat.lt_or_ge s (blk.bi - alo) with hc1 | hc1
        · exact ihL s hc1
        · rcases Nat.lt_or_ge s (blk.bi - alo + blk.size) with hc2 | hc2
          · have e1 : alo + s = blk.bi + (s - (blk.bi - alo)) := by omega
            have e2 : blo + s = blk.bj + (s - (blk.bi - alo)) := by omega
            rw [e1, e2]
            exact hcont _ (by omega)
          · have e1 : alo + s = blk.bi + blk.size + (s - (blk.bi - alo + blk.size)) := by
              omega
            have e2 : blo + s = blk.bj + blk.size + (s - (blk.bi - alo + blk.size)) := by
              omega
            rw [e1, e2]
            exact ihR _ (by omega)

/-! Lemmas for matching a sequence against itself: the diagonal wins the
row scan and the extensions then cover the whole range, so `ratio(a, a)`
is 1. -/

/-- The diagonal column is visited whenever the row's character is not
popular. -/
theorem cols_self_mem (a : List Char) (n i : Nat)
    (hi : i < n) (hia : i < a.length) (hpop : popular a (a.getD i dChar) = false) :
    i ∈ cols a a 0 n i := by
  simp only [cols, List.mem_filter, b2j, hpop, Bool.false_eq_true, if_false,
    positions, List.mem_range, beq_self_eq_true, and_true, Bool.and_eq_true,
    decide_eq_true_eq]
  omega

/-- Characters of visited columns match the row's character (self case). -/
theorem cols_self_elem (a : List Char) (n i j : Nat)
    (h : j ∈ cols a a 0 n i) :
    a.getD j dChar = a.getD i dChar ∧ popular a (a.getD i dChar) = false ∧
      j < n ∧ j < a.length := by
  obtain ⟨-, hbhi, hlen, hchar, hpop⟩ := cols_mem a a 0 n i j h
  exact ⟨hchar, hchar ▸ hpop, hbhi, hlen⟩

/-- A run ending at `(i, j)` is no longer than the diagonal run ending at
`(j, j)` (`v(i,j) ≤ v(j,j)`). -/
theorem jstate_self_le_diag (a : List Char) (n : Nat) :
    ∀ j t, jstate a a 0 n 0 (t + 1) j ≤ jstate a a 0 n 0 (j + 1) j := by
  intro j
  induction j using Nat.strong_induction_on with
  | _ j ih =>
    intro t
    rcases Nat.eq_zero_or_pos (jstate a a 0 n 0 (t + 1) j) with h0 | hp
    · omega
    · obtain ⟨hc, hval⟩ := jstate_pos a a 0 n 0 t j (by omega)
      have hj : j ∈ cols a a 0 n (0 + t) := by simpa using hc
      rw [Nat.zero_add] at hj
      obtain ⟨hchar, hpop, hjn, hjlen⟩ := cols_self_elem a n t j hj
      have hjj : j ∈ cols a a 0 n j :=
        cols_self_mem a n j hjn hjlen (hchar ▸ hpop)
      have hvalj : jstate a a 0 n 0 (j + 1) j = newLen (jstate a a 0 n 0 j) j := by
        simp only [jstate, rowJ2, Nat.zero_add]
        rw [if_pos (by simpa using hjj)]
      rw [hval, hvalj]
      simp only [newLen]
      split
      · omega
      · rename_i hj0
        match t with
        | 0 => simp [jstate]
        | t + 1 =>
          have := ih (j - 1) (by omega) t
          have e : j - 1 + 1 = j := by omega
          rw [e] at this
          omega

/-- A run ending in row `i` is no longer than the diagonal run of row `i`
(`v(i,j) ≤ v(i,i)`). -/
theorem jstate_self_le_row (a : List Char) (n : Nat) (hn : n = a.length) :
    ∀ t, t < n → ∀ j, jstate a a 0 n 0 (t + 1) j ≤ jstate a a 0 n 0 (t + 1) t := by
  intro t
  induction t with
  | zero =>
    intro ht j
    show jstate a a 0 n 0 1 j ≤ jstate a a 0 n 0 1 0
    rcases Nat.eq_zero_or_pos (jstate a a 0 n 0 1 j) with h0 | hp
    · omega
    · obtain ⟨hc, hval⟩ :=
        jstate_pos a a 0 n 0 0 j (by exact Nat.pos_iff_ne_zero.mp hp)
      have hj : j ∈ cols a a 0 n 0 := by simpa using hc
      obtain ⟨hchar, hpop, -, -⟩ := cols_self_elem a n 0 j hj
      have h00 : (0 : Nat) ∈ cols a a 0 n 0 := cols_self_mem a n 0 ht (by omega) hpop
      have hval0 : jstate a a 0 n 0 1 0 = newLen (jstate a a 0 n 0 0) 0 := by
        simp only [jstate, rowJ2, Nat.zero_add]
        rw [if_pos (by simpa using h00)]
      have hle : jstate a a 0 n 0 1 j ≤ 1 := jstate_le a a 0 n 0 1 j
      have h1 : jstate a a 0 n 0 1 0 = 1 := by
        rw [hval0]; simp [newLen, jstate]
      omega
  | succ t ih =>
    intro ht j
    rcases Nat.eq_zero_or_pos (jstate a a 0 n 0 (t + 1 + 1) j) with h0 | hp
    · omega
    · obtain ⟨hc, hval⟩ := jstate_pos a a 0 n 0 (t + 1) j (by omega)
      have hj : j ∈ cols a a 0 n (t + 1) := by simpa using hc
      obtain ⟨hchar, hpop, -, -⟩ := cols_self_elem a n (t + 1) j hj
      have htt : (t + 1) ∈ cols a a 0 n (t + 1) :=
        cols_self_mem a n (t + 1) ht (by omega) hpop
      have hvalt :
          jstate a a 0 n 0 (t + 1 + 1) (t + 1) = newLen (jstate a a 0 n 0 (t + 1)) (t + 1) := by
        simp only [jstate, rowJ2, Nat.zero_add]
        rw [if_pos (by simpa using htt)]
      have hvt :
          jstate a a 0 n 0 (t + 1 + 1) (t + 1) = jstate a a 0 n 0 (t + 1) t + 1 := by
        rw [hvalt]
        simp only [newLen]
        rw [if_neg (Nat.succ_ne_zero t)]
        simp
      rw [hval, hvt]
      simp only [newLen]
      split
      · omega
      · rename_i hj0
        have hrec := ih (by omega) (j - 1)
        omega

/-- The fold of one row leaves the best block unchanged when no visited
column beats it. -/
theorem rowBest_noUpdate (i : Nat) (j2l : Nat → Nat) :
    ∀ (cs : List Nat) (best : Block), (∀ j ∈ cs, newLen j2l j ≤ best.size) →
      rowBest i j2l cs best = best := by
  intro cs
  induction cs with
  | nil => intro best _; rfl
  | cons c rest ih =>
    intro best h
    simp only [rowBest, List.foldl_cons]
    rw [if_neg (by have := h c (by simp); omega)]
    exact ih best (fun j hj => h j (by simp [hj]))

/-- After any number of rows of the self scan, the best block sits on the
diagonal and dominates every diagonal run seen so far. -/
theorem bstate_self_diag (a : List Char) (n : Nat) (hn : n = a.length) :
    ∀ t, t ≤ n →
      (bstate a a 0 0 n t).bi = (bstate a a 0 0 n t).bj ∧
        ∀ r, r < t → jstate a a 0 n 0 (r + 1) r ≤ (bstate a a 0 0 n t).size := by
  intro t
  induction t with
  | zero => exact fun _ => ⟨rfl, by omega⟩
  | succ t ih =>
    intro ht
    obtain ⟨ihdiag, ihdom⟩ := ih (by omega)
    have hstep : bstate a a 0 0 n (t + 1) =
        rowBest t (jstate a a 0 n 0 t) (cols a a 0 n t) (bstate a a 0 0 n t) := by
      simp [bstate]
    by_cases htin : t ∈ cols a a 0 n t
    · obtain ⟨L, R, hsplit⟩ := List.append_of_mem htin
      have hsort := cols_sorted a a 0 n t
      rw [hsplit] at hsort
      rw [List.pairwise_append] at hsort
      obtain ⟨-, hsortR, hcross⟩ := hsort
      have hLlt : ∀ x ∈ L, x < t := fun x hx => hcross x hx t (by simp)
      have hRgt : ∀ y ∈ R, t < y := (List.pairwise_cons.mp hsortR).1
      set j2l := jstate a a 0 n 0 t with hj2l
      set kT := newLen j2l t with hkT
      have hTval : jstate a a 0 n 0 (t + 1) t = kT := by
        simp only [jstate, rowJ2, Nat.zero_add, hj2l]
        rw [if_pos (by simpa using htin)]
      have hA : rowBest t j2l L (bstate a a 0 0 n t) = bstate a a 0 0 n t := by
        apply rowBest_noUpdate
        intro j hjL
        have hjt : j < t := hLlt j hjL
        have hjcs : j ∈ cols a a 0 n t := by rw [hsplit]; simp [hjL]
        have hjval : jstate a a 0 n 0 (t + 1) j = newLen j2l j := by
          simp only [jstate, rowJ2, Nat.zero_add, hj2l]
          rw [if_pos (by simpa using hjcs)]
        have h1 := jstate_self_le_diag a n j t
        have h2 := ihdom j hjt
        omega
      set mid := rowBest t j2l [t] (bstate a a 0 0 n t) with hmiddef
      have hmid : mid.bi = mid.bj ∧ kT ≤ mid.size ∧ (bstate a a 0 0 n t).size ≤ mid.size := by
        rw [hmiddef]
        simp only [rowBest, List.foldl_cons, List.foldl_nil]
        split
        · rename_i hgt
          refine ⟨rfl, ?_, ?_⟩
          · show kT ≤ newLen j2l t
            omega
          · show (bstate a a 0 0 n t).size ≤ newLen j2l t
            omega
        · rename_i hgt
          refine ⟨ihdiag, ?_, Nat.le_refl _⟩
          omega
      obtain ⟨hmd, hms1, hms2⟩ := hmid
      have hC : rowBest t j2l R mid = mid := by
        apply rowBest_noUpdate
        intro j hjR
        have hjcs : j ∈ cols a a 0 n t := by rw [hsplit]; simp [hjR]
        have hjval : jstate a a 0 n 0 (t + 1) j = newLen j2l j := by
          simp only [jstate, rowJ2, Nat.zero_add, hj2l]
          rw [if_pos (by simpa using hjcs)]
        have h1 := jstate_self_le_row a n hn t (by omega) j
        omega
      have hfold : bstate a a 0 0 n (t + 1) = rowBest t j2l R mid := by
        rw [hstep, hsplit]
        have e1 : rowBest t j2l (L ++ t :: R) (bstate a a 0 0 n t)
            = rowBest t j2l (t :: R) (rowBest t j2l L (bstate a a 0 0 n t)) := by
          simp [rowBest, List.foldl_append]
        have e2 : rowBest t j2l (t :: R) (bstate a a 0 0 n t)
            = rowBest t j2l R (rowBest t j2l [t] (bstate a a 0 0 n t)) := rfl
        rw [e1, hA, e2, ← hmiddef]
      rw [hfold, hC]
      refine ⟨hmd, ?_⟩
      intro r hr
      rcases Nat.lt_or_ge r t with hrt | hrt
      · have h3 := ihdom r hrt
        omega
      · have hre : r = t := by omega
        subst hre
        omega
    · have hempty : cols a a 0 n t = [] := by
        rw [List.eq_nil_iff_forall_not_mem]
        intro j hj
        obtain ⟨hchar, hpop, -, -⟩ := cols_self_elem a n t j hj
        exact htin (cols_self_mem a n t (by omega) (by omega) hpop)
      rw [hstep, hempty]
      have hnil : rowBest t (jstate a a 0 n 0 t) [] (bstate a a 0 0 n t)
          = bstate a a 0 0 n t := rfl
      rw [hnil]
      refine ⟨ihdiag, ?_⟩
      intro r hr
      rcases Nat.lt_or_ge r t with hrt | hrt
      · exact ihdom r hrt
      · have hre : r = t := by omega
        rw [hre]
        have hz : jstate a a 0 n 0 (t + 1) t = 0 := by
          simp only [jstate, rowJ2, Nat.zero_add, hempty]
          simp
        omega

/-- On the diagonal the leftward extension runs all the way to 0. -/
theorem extLeft_self (a : List Char) :
    ∀ fuel i k, i ≤ fuel → extLeft a a 0 0 fuel ⟨i, i, k⟩ = ⟨0, 0, k + i⟩ := by
  intro fuel
  induction fuel with
  | zero =>
    intro i k hi
    have hi0 : i = 0 := by omega
    subst hi0
    rfl
  | succ fuel ih =>
    intro i k hi
    match i with
    | 0 =>
      simp [extLeft]
    | i + 1 =>
      simp only [extLeft]
      rw [if_pos (by simp)]
      have := ih i (k + 1) (by omega)
      simp only [Nat.add_sub_cancel] at this ⊢
      rw [this]
      have e : k + 1 + i = k + (i + 1) := by omega
      rw [e]

/-- On the diagonal the rightward extension runs to the range's end. -/
theorem extRight_self (a : List Char) (n : Nat) :
    ∀ fuel k, n - k ≤ fuel → k ≤ n →
      extRight a a n n fuel ⟨0, 0, k⟩ = ⟨0, 0, n⟩ := by
  intro fuel
  induction fuel with
  | zero =>
    intro k h1 h2
    have hk : k = n := by omega
    subst hk
    rfl
  | succ fuel ih =>
    intro k h1 h2
    rcases Nat.lt_or_ge k n with hk | hk
    · simp only [extRight]
      rw [if_pos (by simp [hk])]
      exact ih (k + 1) (by omega) (by omega)
    · have hk2 : k = n := by omega
      subst hk2
      simp only [extRight]
      rw [if_neg (by simp)]

/-- `find_longest_match` over a sequence and itself returns the whole
range. -/
theorem flm_self (a : List Char) : flm a a 0 a.length 0 a.length = ⟨0, 0, a.length⟩ := by
  set n := a.length with hn
  obtain ⟨hdiag, -⟩ := bstate_self_diag a n hn.symm n (Nat.le_refl n)
  have hnn : n - 0 = n := by omega
  have hb := bstate_inv a a 0 0 n n
  simp only [flm, hnn]
  set base := bstate a a 0 0 n n with hbase
  have hsize : base.bi + base.size ≤ n := by
    rcases hb with h | h
    · rw [h]; simp
    · have := h.2.2.1
      omega
  have hL : extLeft a a 0 0 base.bi base = ⟨0, 0, base.size + base.bi⟩ := by
    have : base = ⟨base.bi, base.bj, base.size⟩ := rfl
    rw [this, ← hdiag]
    exact extLeft_self a base.bi base.bi base.size (Nat.le_refl _)
  rw [hL]
  exact extRight_self a n n (base.size + base.bi) (by omega) (by omega)

/-- `get_matching_blocks` over a sequence and itself matches everything:
`ratio(a, a) = 1`. -/
theorem mFull_self (a : List Char) : mFull a a = a.length := by
  simp only [mFull, mTotal, flm_self]
  split
  · rename_i h
    have h0 : a.length = 0 := h
    omega
  · have h1 := mTotal_le a a a.length 0 0 0 0 (Nat.le_refl _) (Nat.le_refl _)
    have h2 := mTotal_le a a a.length (0 + a.length) a.length (0 + a.length) a.length
      (by omega) (by omega)
    simp only at h1 h2 ⊢
    omega

/-- General bound: the total matched size never exceeds either length. -/
theorem mFull_le (x w : List Char) : mFull x w ≤ x.length ∧ mFull x w ≤ w.length := by
  have := mTotal_le x w (x.length + 1) 0 x.length 0 w.length (Nat.zero_le _) (Nat.zero_le _)
  simpa [mFull] using this

/-- A total matching both full lengths forces the sequences to be equal. -/
theorem mFull_full_eq (x w : List Char) (hx : mFull x w = x.length)
    (hw : mFull x w = w.length) : x = w := by
  have hcontent := mTotal_full x w (x.length + 1) 0 x.length 0 w.length
    (Nat.zero_le _) (Nat.zero_le _) (by simpa [mFull] using hx) (by simpa [mFull] using hw)
  have hlen : x.length = w.length := by omega
  apply List.ext_getElem hlen
  intro i h1 h2
  have := hcontent i (by omega)
  simpa [List.getD_eq_getElem?_getD, List.getElem?_eq_getElem, h1, h2,
    Nat.zero_add] using this

/-- The bookkeeping loop of `quick_ratio` counts every position when the
two sequences are equal. -/
theorem qLoop_self (full : List Char) :
    ∀ todo done avail, full = done ++ todo →
      (∀ x, avail x =
        if done.contains x then some ((full.count x : Int) - done.count x) else none) →
      qLoop (fun c => full.count c) todo avail done.length = full.length := by
  intro todo
  induction todo with
  | nil =>
    intro done avail hfull _
    simp only [qLoop]
    rw [hfull]
    simp
  | cons c rest ih =>
    intro done avail hfull havail
    have hcount : full.count c = done.count c + rest.count c + 1 := by
      rw [hfull]
      simp [List.count_append, List.count_cons]
      omega
    have hnumb : (match avail c with
        | some v => v
        | none => ((full.count c : Nat) : Int)) = (full.count c : Int) - done.count c := by
      rw [havail c]
      split_ifs with hdc
      · rfl
      · have hd0 : done.count c = 0 := by
          rw [List.count_eq_zero]
          intro hmem
          exact hdc (by simpa using hmem)
        simp [hd0]
    simp only [qLoop]
    rw [hnumb]
    rw [if_pos (by omega)]
    have hlen : done.length + 1 = (done ++ [c]).length := by simp
    rw [hlen]
    apply ih (done ++ [c])
    · rw [hfull]; simp
    · intro x
      by_cases hxc : x = c
      · subst hxc
        rw [if_pos rfl]
        have hc1 : (done ++ [x]).contains x = true := by simp
        rw [hc1, if_pos rfl]
        have hc2 : ((done ++ [x]).count x : Int) = (done.count x : Int) + 1 := by
          simp [List.count_append]
        rw [hc2]
        simp only [Option.some.injEq]
        omega
      · rw [if_neg hxc]
        rw [havail x]
        have hc1 : (done ++ [c]).contains x = done.contains x := by
          simp only [List.contains_eq_any_beq]
          simp [List.any_append, hxc]
        have hc2 : (done ++ [c]).count x = done.count x := by
          simp [List.count_append, List.count_cons, hxc]
        rw [hc1, hc2]

/-- `quick_ratio` of a sequence with itself is 1. -/
theorem quickM_self (a : List Char) : quickM a a = a.length := by
  have := qLoop_self a a [] (fun _ => none) rfl (by intro x; simp)
  simpa [quickM] using this

/-- The query itself scores ratio 1 and passes every cutoff. -/
theorem score_self (key : String) (hk : key ≠ "") :
    score key key = some ⟨key.data.length, key.data.length + key.data.length, key⟩ := by
  have hlen : 1 ≤ key.data.length := by
    rcases Nat.eq_zero_or_pos key.data.length with h0 | h1
    · exact absurd (by cases key; simp_all [List.length_eq_zero]) hk
    · exact h1
  have ht0 : key.data.length + key.data.length ≠ 0 := by omega
  simp only [score, Nat.min_self]
  rw [if_pos (by simp only [ratCutoff, rNum, rDen, if_neg ht0]; simp; omega)]
  rw [quickM_self]
  rw [if_pos (by simp only [ratCutoff, rNum, rDen, if_neg ht0]; simp; omega)]
  rw [mFull_self]
  rw [if_pos (by simp only [ratCutoff, rNum, rDen, if_neg ht0]; simp; omega)]

/-- Shape of any kept candidate. -/
theorem score_shape (word x : String) (c : Cand) (h : score word x = some c) :
    c = ⟨mFull x.data word.data, x.data.length + word.data.length, x⟩ := by
  simp only [score] at h
  split_ifs at h
  exact (Option.some.inj h).symm

/-- The tuple order is irreflexive. -/
theorem candLt_irrefl (c : Cand) : candLt c c = false := by
  simp [candLt, ratLt, ratEq, String.lt_irrefl]

/-- Any candidate other than the query itself scores strictly below 1. -/
theorem score_other_lt (key x : String) (hk : key ≠ "") (hx : x ≠ key) :
    2 * mFull x.data key.data < x.data.length + key.data.length := by
  obtain ⟨h1, h2⟩ := mFull_le x.data key.data
  rcases Nat.lt_or_ge (2 * mFull x.data key.data) (x.data.length + key.data.length) with h | h
  · exact h
  · exfalso
    have hx1 : mFull x.data key.data = x.data.length := by omega
    have hx2 : mFull x.data key.data = key.data.length := by omega
    exact hx (by
      have := mFull_full_eq x.data key.data hx1 hx2
      cases x; cases key; simp_all)

/-- Folding `pickMax` keeps the dominant candidate once found. -/
theorem pickMax_keep (kc : Cand) :
    ∀ (l : List Cand), (∀ c ∈ l, c = kc ∨ candLt kc c = false) →
      l.foldl (fun best c =>
        match best with
        | none => some c
        | some b0 => if candLt b0 c then some c else best) (some kc) = some kc := by
  intro l
  induction l with
  | nil => intro _; rfl
  | cons c rest ih =>
    intro h
    show List.foldl _ (if candLt kc c then some c else some kc) rest = some kc
    have hred : (if candLt kc c then some c else some kc) = some kc := by
      rcases h c (by simp) with hc | hc
      · subst hc; split_ifs <;> rfl
      · rw [hc]; simp
    rw [hred]
    exact ih (fun d hd => h d (by simp [hd]))

/-- Folding `pickMax` from a dominated state reaches the dominant
candidate. -/
theorem pickMax_reach (kc : Cand) :
    ∀ (l : List Cand), kc ∈ l →
      (∀ c ∈ l, c = kc ∨ (candLt c kc = true ∧ candLt kc c = false)) →
      ∀ b0, candLt b0 kc = true →
        l.foldl (fun best c =>
          match best with
          | none => some c
          | some b0 => if candLt b0 c then some c else best) (some b0) = some kc := by
  intro l
  induction l with
  | nil =>
    intro h _ _ _
    simp at h
  | cons c rest ih =>
    intro hmem hdom b0 hb0
    show List.foldl _ (if candLt b0 c then some c else some b0) rest = some kc
    rcases hdom c (by simp) with hc | hc
    · subst hc
      rw [if_pos hb0]
      exact pickMax_keep c rest (fun d hd => (hdom d (by simp [hd])).imp id And.right)
    · have hckc : c ≠ kc := by
        intro hEq
        rw [hEq] at hc
        rw [candLt_irrefl] at hc
        exact Bool.false_ne_true hc.1
      have hmem' : kc ∈ rest := by
        rcases List.mem_cons.mp hmem with h | h
        · exact absurd h.symm hckc
        · exact h
      split_ifs with hbc
      · exact ih hmem' (fun d hd => hdom d (by simp [hd])) c hc.1
      · exact ih hmem' (fun d hd => hdom d (by simp [hd])) b0 hb0

/-- `get_close_matches` returns the query itself whenever the query is one
of the possibilities. -/
theorem gcm_self (key : String) (keys : List String) (hk : key ≠ "")
    (hmem : key ∈ keys) : gcm key keys = some key := by
  have hlen : 1 ≤ key.data.length := by
    rcases Nat.eq_zero_or_pos key.data.length with h0 | h1
    · exact absurd (by cases key; simp_all [List.length_eq_zero]) hk
    · exact h1
  set kc : Cand := ⟨key.data.length, key.data.length + key.data.length, key⟩ with hkc
  have hkcmem : kc ∈ keys.filterMap (score key) := by
    rw [List.mem_filterMap]
    exact ⟨key, hmem, score_self key hk⟩
  have hdom : ∀ c ∈ keys.filterMap (score key),
      c = kc ∨ (candLt c kc = true ∧ candLt kc c = false) := by
    intro c hc
    rw [List.mem_filterMap] at hc
    obtain ⟨x, hxmem, hxscore⟩ := hc
    by_cases hxk : x = key
    · subst hxk
      rw [score_self x hk] at hxscore
      exact Or.inl ((Option.some.injEq _ _).mp hxscore).symm
    · have hshape := score_shape key x c hxscore
      have hlt := score_other_lt key x hk hxk
      right
      subst hshape
      have htx0 : x.data.length + key.data.length ≠ 0 := by omega
      have htk0 : key.data.length + key.data.length ≠ 0 := by omega
      have hmul : 2 * mFull x.data key.data * (key.data.length + key.data.length)
          < 2 * key.data.length * (x.data.length + key.data.length) := by
        calc 2 * mFull x.data key.data * (key.data.length + key.data.length)
            < (x.data.length + key.data.length) * (key.data.length + key.data.length) :=
              (Nat.mul_lt_mul_right (by omega)).mpr hlt
          _ = 2 * key.data.length * (x.data.length + key.data.length) := by ring
      constructor
      · simp only [candLt, ratLt, rNum, rDen, if_neg htx0, if_neg htk0, Bool.or_eq_true,
          decide_eq_true_eq]
        left
        exact hmul
      · simp only [candLt, ratLt, ratEq, rNum, rDen, if_neg htx0, if_neg htk0,
          Bool.or_eq_false_iff, Bool.and_eq_false_iff, decide_eq_false_iff_not, not_lt,
          beq_eq_false_iff_ne, ne_eq]
        refine ⟨by omega, Or.inl ?_⟩
        intro hEq
        omega
  have hpick : pickMax (keys.filterMap (score key)) = some kc := by
    cases hdomList : keys.filterMap (score key) with
    | nil =>
      rw [hdomList] at hkcmem
      simp at hkcmem
    | cons c rest =>
      rw [hdomList] at hkcmem hdom
      show List.foldl _ (some c) rest = some kc
      rcases hdom c (by simp) with hc | hc
      · rw [hc]
        exact pickMax_keep kc rest (fun d hd =>
          (hdom d (by simp [hd])).imp (fun he => he) And.right)
      · have hckc : c ≠ kc := by
          intro hEq
          rw [hEq] at hc
          rw [candLt_irrefl] at hc
          exact Bool.false_ne_true hc.1
        have hmem' : kc ∈ rest := by
          rcases List.mem_cons.mp hkcmem with h | h
          · exact absurd h.symm hckc
          · exact h
        exact pickMax_reach kc rest hmem'
          (fun d hd => hdom d (by simp [hd])) c hc.1
  show (pickMax (keys.filterMap (score key))).map Cand.key = some key
  rw [hpick]
  rfl

/-- An empty query matches nothing when every possibility is nonempty. -/
theorem gcm_empty (keys : List String) (hne : ∀ y ∈ keys, y ≠ "") :
    gcm "" keys = none := by
  have hfm : keys.filterMap (score "") = [] := by
    rw [List.filterMap_eq_nil_iff]
    intro x hx
    have hxne : x ≠ "" := hne x hx
    have hlen : 1 ≤ x.data.length := by
      rcases Nat.eq_zero_or_pos x.data.length with h0 | h1
      · exact absurd (by cases x; simp_all [List.length_eq_zero]) hxne
      · exact h1
    have hcond : ratCutoff (min x.data.length (("" : String).data.length))
        (x.data.length + ("" : String).data.length) = false := by
      have he : (("" : String).data) = ([] : List Char) := rfl
      rw [he]
      simp only [List.length_nil, Nat.min_zero, Nat.add_zero, ratCutoff, rNum, rDen]
      rw [if_neg (by omega), if_neg (by omega)]
      simp only [decide_eq_false_iff_not, not_le]
      omega
    simp only [score, hcond, Bool.false_eq_true, if_false]
  simp [gcm, hfm, pickMax]

end Difflib

/-! ## String-normalisation lemmas -/

/-- Lower-casing does not change whether a character is whitespace. -/
theorem isPySpace_lowerChar (c : Char) : isPySpace (lowerChar c) = isPySpace c := by
  unfold lowerChar
  split <;> first | decide | rfl

/-- Lower-casing preserves non-emptiness. -/
theorem lowerStr_ne_empty (s : String) (h : s ≠ "") : lowerStr s ≠ "" := by
  intro hEq
  apply h
  cases s with
  | mk data =>
    have hd : (lowerStr ⟨data⟩).data = data.map lowerChar := rfl
    rw [hEq] at hd
    have : data.map lowerChar = [] := hd.symm
    have : data = [] := by simpa using this
    simp [this]

/-- Whitespace-freeness transfers through lower-casing (both ways). -/
theorem lowerStr_noWS (s : String) :
    (∀ ch ∈ (lowerStr s).data, isPySpace ch = false) ↔
      (∀ ch ∈ s.data, isPySpace ch = false) := by
  have hd : (lowerStr s).data = s.data.map lowerChar := rfl
  rw [hd]
  constructor
  · intro h ch hch
    have := h (lowerChar ch) (List.mem_map_of_mem _ hch)
    rwa [isPySpace_lowerChar] at this
  · intro h ch hch
    rw [List.mem_map] at hch
    obtain ⟨c0, hc0, hEq⟩ := hch
    rw [← hEq, isPySpace_lowerChar]
    exact h c0 hc0

/-- Every token produced by `pySplit` is nonempty and whitespace-free. -/
theorem pySplitAux_tokens :
    ∀ (l acc : List Char), (∀ ch ∈ acc, isPySpace ch = false) →
      ∀ tok ∈ pySplitAux l acc, tok.data ≠ [] ∧ ∀ ch ∈ tok.data, isPySpace ch = false := by
  intro l
  induction l with
  | nil =>
    intro acc hacc tok htok
    simp only [pySplitAux] at htok
    split at htok
    · simp at htok
    · rename_i hne
      simp only [List.mem_singleton] at htok
      subst htok
      constructor
      · simpa [List.isEmpty_iff] using hne
      · intro ch hch
        exact hacc ch (by simpa using hch)
  | cons c rest ih =>
    intro acc hacc tok htok
    simp only [pySplitAux] at htok
    split at htok
    · rename_i hws
      split at htok
      · exact ih [] (by simp) tok htok
      · rename_i hne
        rcases List.mem_cons.mp htok with h | h
        · subst h
          constructor
          · simpa [List.isEmpty_iff] using hne
          · intro ch hch
            exact hacc ch (by simpa using hch)
        · exact ih [] (by simp) tok h
    · rename_i hws
      refine ih (c :: acc) ?_ tok htok
      intro ch hch
      rcases List.mem_cons.mp hch with h | h
      · subst h
        simpa using hws
      · exact hacc ch h

/-- Tokens of `pySplit` are nonempty and whitespace-free. -/
theorem pySplit_tokens (s : String) :
    ∀ tok ∈ pySplit s, tok ≠ "" ∧ ∀ ch ∈ tok.data, isPySpace ch = false := by
  intro tok htok
  obtain ⟨h1, h2⟩ := pySplitAux_tokens s.data [] (by simp) tok htok
  refine ⟨?_, h2⟩
  intro hEq
  apply h1
  rw [hEq]

/-- A nonempty whitespace-free string is a single token. -/
theorem pySplitAux_noWS :
    ∀ (l acc : List Char), (∀ ch ∈ l, isPySpace ch = false) →
      (acc ≠ [] ∨ l ≠ []) → pySplitAux l acc = [⟨acc.reverse ++ l⟩] := by
  intro l
  induction l with
  | nil =>
    intro acc _ hne
    have hacc : acc ≠ [] := by
      rcases hne with h | h
      · exact h
      · exact absurd rfl h
    simp only [pySplitAux]
    rw [if_neg (by simpa [List.isEmpty_iff] using hacc)]
    simp
  | cons c rest ih =>
    intro acc hnows _
    have hws : isPySpace c = false := hnows c (by simp)
    simp only [pySplitAux, hws, Bool.false_eq_true, if_false]
    rw [ih (c :: acc) (fun ch hch => hnows ch (by simp [hch])) (Or.inl (by simp))]
    simp

/-- `pySplit` of a nonempty whitespace-free string is the singleton. -/
theorem pySplit_single (s : String) (h1 : s ≠ "")
    (h2 : ∀ ch ∈ s.data, isPySpace ch = false) : pySplit s = [s] := by
  have hdne : s.data ≠ [] := by
    intro hEq
    apply h1
    cases s with
    | mk data => simp_all
  rw [pySplit, pySplitAux_noWS s.data [] h2 (Or.inr hdne)]
  simp

/-! ## Association-list lemmas for the member cache -/

/-- Unfolding `List.lookup` on a cons cell with a propositional test. -/
theorem lookup_cons_key {β : Type} (k k0 : String) (v0 : β)
    (rest : List (String × β)) :
    List.lookup k ((k0, v0) :: rest) = if k = k0 then some v0 else List.lookup k rest := by
  by_cases h : k = k0
  · subst h
    simp [List.lookup]
  · have hb : (k == k0) = false := by simp [h]
    simp [List.lookup, hb, h]

/-- Lookup after a dict insert. -/
theorem lookup_upsert {β : Type} (k k' : String) (v : β) :
    ∀ l : List (String × β),
      List.lookup k (upsert k' v l) = if k = k' then some v else List.lookup k l := by
  intro l
  induction l with
  | nil =>
    show List.lookup k [(k', v)] = _
    rw [lookup_cons_key]
  | cons p rest ih =>
    obtain ⟨k0, v0⟩ := p
    show List.lookup k (if k0 = k' then (k', v) :: rest else (k0, v0) :: upsert k' v rest) = _
    by_cases h : k0 = k'
    · rw [if_pos h]
      subst h
      rw [lookup_cons_key, lookup_cons_key]
      split_ifs <;> rfl
    · rw [if_neg h, lookup_cons_key, ih, lookup_cons_key]
      split_ifs <;> first | rfl | (rename_i h1 h2; exact absurd (h1.symm.trans h2) h)

/-- Lookup after a `setdefault(...).append(...)`. -/
theorem lookup_appendAt {β : Type} (k k' : String) (v : β) :
    ∀ l : List (String × List β),
      List.lookup k (appendAt k' v l) =
        if k = k' then some (((List.lookup k' l).getD []) ++ [v])
        else List.lookup k l := by
  intro l
  induction l with
  | nil =>
    show List.lookup k [(k', [v])] = _
    rw [lookup_cons_key]
    split_ifs <;> rfl
  | cons p rest ih =>
    obtain ⟨k0, l0⟩ := p
    show List.lookup k
        (if k0 = k' then (k0, l0 ++ [v]) :: rest else (k0, l0) :: appendAt k' v rest) = _
    by_cases h : k0 = k'
    · rw [if_pos h]
      subst h
      rw [lookup_cons_key, lookup_cons_key, lookup_cons_key, if_pos rfl]
      split_ifs <;> rfl
    · rw [if_neg h, lookup_cons_key, ih, lookup_cons_key,
          if_neg (show ¬k' = k0 from fun hEq => h hEq.symm), lookup_cons_key]
      split_ifs <;> first | rfl | (rename_i h1 h2; exact absurd (h1.symm.trans h2) h)

/-- A successful lookup is a membership. -/
theorem lookup_mem {β : Type} (k : String) (v : β) :
    ∀ l : List (String × β), List.lookup k l = some v → (k, v) ∈ l := by
  intro l
  induction l with
  | nil => intro h; simp [List.lookup] at h
  | cons p rest ih =>
    obtain ⟨k0, v0⟩ := p
    intro h
    rw [lookup_cons_key] at h
    split_ifs at h with h2
    · subst h2
      injection h with h3
      subst h3
      exact List.mem_cons_self _ _
    · exact List.mem_cons_of_mem _ (ih h)

/-- Lookup misses when no key matches. -/
theorem lookup_none {β : Type} (k : String) :
    ∀ l : List (String × β), (∀ p ∈ l, p.1 ≠ k) → List.lookup k l = none := by
  intro l
  induction l with
  | nil => intro _; rfl
  | cons p rest ih =>
    obtain ⟨k0, v0⟩ := p
    intro h
    rw [lookup_cons_key, if_neg (fun hEq => h (k0, v0) (List.mem_cons_self _ _) hEq.symm)]
    exact ih (fun p hp => h p (List.mem_cons_of_mem _ hp))

/-! ## Invariants of the member cache -/

/-- Every full-name cache entry is keyed by the lower-cased member name, and
the name splits into at least one token. -/
def FullInv (full : List (String × CMember)) : Prop :=
  ∀ p ∈ full, p.1 = lowerStr p.2.name ∧ ∃ tok rest, pySplit p.2.name = tok :: rest

/-- Every first-name index entry is a nonempty bucket keyed by the lower-cased
first token of each of its members' names. -/
def FidxInv (fidx : List (String × List CMember)) : Prop :=
  ∀ p ∈ fidx, p.2 ≠ [] ∧
    ∀ m ∈ p.2, ∃ tok rest, pySplit m.name = tok :: rest ∧ p.1 = lowerStr tok

/-- Every member reachable in the full-name cache also sits in the first-name
bucket of its first token. -/
def CrossInv (c : Caches) : Prop :=
  ∀ k w, List.lookup k c.full = some w →
    ∀ tok rest, pySplit w.name = tok :: rest →
      w ∈ (List.lookup (lowerStr tok) c.fidx).getD []

def CachesInv (c : Caches) : Prop := FullInv c.full ∧ FidxInv c.fidx ∧ CrossInv c

/-- Membership after an upsert comes from the new pair or the old list. -/
theorem mem_upsert {κ α : Type} [DecidableEq κ] (k : κ) (v : α) :
    ∀ (l : List (κ × α)) (p : κ × α), p ∈ upsert k v l → p = (k, v) ∨ p ∈ l := by
  intro l
  induction l with
  | nil =>
    intro p hp
    simp only [upsert, List.mem_singleton] at hp
    exact Or.inl hp
  | cons q rest ih =>
    obtain ⟨k0, v0⟩ := q
    intro p hp
    simp only [upsert] at hp
    split_ifs at hp with h
    · rcases List.mem_cons.mp hp with h1 | h1
      · exact Or.inl h1
      · exact Or.inr (List.mem_cons_of_mem _ h1)
    · rcases List.mem_cons.mp hp with h1 | h1
      · exact Or.inr (by simp [h1])
      · rcases ih p h1 with h2 | h2
        · exact Or.inl h2
        · exact Or.inr (List.mem_cons_of_mem _ h2)

/-- Membership after `appendAt`: either an untouched old pair, or the updated
bucket at `k` (grown from an old bucket or from nothing). -/
theorem mem_appendAt {κ α : Type} [DecidableEq κ] (k : κ) (v : α) :
    ∀ (l : List (κ × List α)) (p : κ × List α), p ∈ appendAt k v l →
      (∃ l0, p = (k, l0 ++ [v]) ∧ ((k, l0) ∈ l ∨ l0 = [])) ∨ p ∈ l := by
  intro l
  induction l with
  | nil =>
    intro p hp
    simp only [appendAt, List.mem_singleton] at hp
    exact Or.inl ⟨[], by simpa using hp, Or.inr rfl⟩
  | cons q rest ih =>
    obtain ⟨k0, l0⟩ := q
    intro p hp
    simp only [appendAt] at hp
    split_ifs at hp with h
    · subst h
      rcases List.mem_cons.mp hp with h1 | h1
      · exact Or.inl ⟨l0, h1, Or.inl (List.mem_cons_self _ _)⟩
      · exact Or.inr (List.mem_cons_of_mem _ h1)
    · rcases List.mem_cons.mp hp with h1 | h1
      · exact Or.inr (by simp [h1])
      · rcases ih p h1 with ⟨l1, hEq, hl1⟩ | h2
        · refine Or.inl ⟨l1, hEq, ?_⟩
          rcases hl1 with h3 | h3
          · exact Or.inl (List.mem_cons_of_mem _ h3)
          · exact Or.inr h3
        · exact Or.inr (List.mem_cons_of_mem _ h2)

/-- The cache-building loop preserves the cache invariants. -/
theorem buildCachesAux_inv :
    ∀ (rows : List MemberRow) (acc c : Caches),
      buildCachesAux acc rows = some c → CachesInv acc → CachesInv c := by
  intro rows
  induction rows with
  | nil =>
    intro acc c h hinv
    simp only [buildCachesAux, Option.some.injEq] at h
    rw [← h]
    exact hinv
  | cons r rest ih =>
    intro acc c h hinv
    simp only [buildCachesAux] at h
    split_ifs at h with hname
    · exact ih acc c h hinv
    · cases hsp : pySplit r.member_name with
      | nil =>
        rw [hsp] at h
        exact absurd h (by simp)
      | cons tok toks =>
        rw [hsp] at h
        simp only [] at h
        refine ih _ c h ⟨?_, ?_, ?_⟩
        · intro p hp
          rcases mem_upsert _ _ _ p hp with hEq | hold
          · subst hEq
            exact ⟨rfl, tok, toks, hsp⟩
          · exact hinv.1 p hold
        · intro p hp
          rcases mem_appendAt _ _ _ p hp with ⟨l0, hpEq, hl0⟩ | hold
          · subst hpEq
            refine ⟨by simp, ?_⟩
            intro m hm
            rcases List.mem_append.mp hm with hm0 | hm1
            · rcases hl0 with hmem | hnil
              · exact (hinv.2.1 (lowerStr tok, l0) hmem).2 m hm0
              · subst hnil
                simp at hm0
            · have hm2 : m = CMember.ofRow r := by simpa using hm1
              subst hm2
              exact ⟨tok, toks, hsp, rfl⟩
          · exact hinv.2.1 p hold
        · intro k w hkw t rs hts
          have hkw2 : List.lookup k
              (upsert (lowerStr r.member_name) (CMember.ofRow r) acc.full) = some w := hkw
          rw [lookup_upsert] at hkw2
          show w ∈ (List.lookup (lowerStr t)
            (appendAt (lowerStr tok) (CMember.ofRow r) acc.fidx)).getD []
          rw [lookup_appendAt]
          split_ifs at hkw2 with hk
          · have hw : CMember.ofRow r = w := Option.some.inj hkw2
            have hts2 : tok :: toks = t :: rs := by
              rw [← hsp]
              rw [← hw] at hts
              exact hts
            have htok : t = tok := (List.cons.inj hts2.symm).1
            rw [if_pos (by rw [htok])]
            simp [← hw]
          · have hold := hinv.2.2 k w hkw2 t rs hts
            split_ifs with h2
            · rw [h2] at hold
              simp only [Option.getD_some]
              exact List.mem_append_left _ hold
            · exact hold

/-- A successfully built member cache satisfies the cache invariants. -/
theorem buildCaches_inv (rows : List MemberRow) (c : Caches)
    (h : buildCaches rows = some c) : CachesInv c := by
  refine buildCachesAux_inv rows ⟨[], []⟩ c h ⟨?_, ?_, ?_⟩
  · intro p hp
    simp [FullInv] at hp
  · intro p hp
    simp [FidxInv] at hp
  · intro k w hkw t rs hts
    simp [List.lookup] at hkw

/-- Names stored in the full-name cache are nonempty. -/
theorem fullInv_name_ne (full : List (String × CMember)) (hinv : FullInv full) :
    ∀ p ∈ full, p.2.name ≠ "" := by
  intro p hp hEq
  obtain ⟨_, tok, rest, hsp⟩ := hinv p hp
  rw [hEq] at hsp
  have : pySplit "" = [] := rfl
  rw [this] at hsp
  exact List.noConfusion hsp

/-- Keys of the full-name cache are nonempty. -/
theorem fullInv_key_ne (full : List (String × CMember)) (hinv : FullInv full) :
    ∀ p ∈ full, p.1 ≠ "" := by
  intro p hp
  rw [(hinv p hp).1]
  exact lowerStr_ne_empty _ (fullInv_name_ne full hinv p hp)

/-- Keys of the first-name index are nonempty. -/
theorem fidxInv_key_ne (fidx : List (String × List CMember)) (hinv : FidxInv fidx) :
    ∀ p ∈ fidx, p.1 ≠ "" := by
  intro p hp
  obtain ⟨hne, hall⟩ := hinv p hp
  cases hl : p.2 with
  | nil => exact absurd hl hne
  | cons m ms =>
    obtain ⟨tok, rest, hsp, hkey⟩ := hall m (by rw [hl]; exact List.mem_cons_self _ _)
    rw [hkey]
    refine lowerStr_ne_empty _ ?_
    exact (pySplit_tokens m.name tok (by rw [hsp]; exact List.mem_cons_self _ _)).1

/-- The fuzzy stage never matches the empty key against a valid cache. -/
theorem fuzzyStage_empty (c : Caches) (hinv : CachesInv c) : fuzzyStage c "" = none := by
  have hg : Difflib.gcm "" (c.full.map Prod.fst) = none := by
    refine Difflib.gcm_empty _ ?_
    intro y hy
    rw [List.mem_map] at hy
    obtain ⟨p, hp, hEq⟩ := hy
    rw [← hEq]
    exact fullInv_key_ne c.full hinv.1 p hp
  rw [fuzzyStage, hg]
  rfl

/-! ## Support lemmas for the operation-level theorems -/

/-- A state whose loaded cache (if any) was actually built by
`_ensure_cache` — the only way the running system ever fills it. -/
def cacheOk (st : St) : Prop :=
  ∀ c, st.cache = some c → ∃ rows, buildCaches rows = some c

/-- `_ensure_cache` hands back a cache that is recorded in the state. -/
theorem ensureCache_cache (st : St) (c : Caches) (stc : St)
    (h : ensureCache st = Except.ok (c, stc)) :
    stc.cache = some c ∧ stc.db = st.db ∧ stc.now = st.now := by
  rw [ensureCache] at h
  cases hst : st.cache with
  | some c0 =>
    rw [hst] at h
    have h2 := Prod.mk.inj (Except.ok.inj h)
    rw [← h2.2, ← h2.1]
    exact ⟨hst, rfl, rfl⟩
  | none =>
    rw [hst] at h
    cases hb : buildCaches st.db.committee with
    | none =>
      rw [hb] at h
      exact absurd h (by simp)
    | some c0 =>
      rw [hb] at h
      have h2 := Prod.mk.inj (Except.ok.inj h)
      rw [← h2.2, ← h2.1]
      exact ⟨rfl, rfl, rfl⟩

/-- `_ensure_cache` on a state that already holds a cache is a no-op. -/
theorem ensureCache_some (st : St) (c : Caches) (h : st.cache = some c) :
    ensureCache st = Except.ok (c, st) := by
  rw [ensureCache, h]

/-- A cache handed out by `_ensure_cache` on a well-formed state satisfies
the cache invariants. -/
theorem ensureCache_inv (st : St) (c : Caches) (stc : St) (hok : cacheOk st)
    (h : ensureCache st = Except.ok (c, stc)) : CachesInv c := by
  rw [ensureCache] at h
  cases hst : st.cache with
  | some c0 =>
    rw [hst] at h
    have h2 := Prod.mk.inj (Except.ok.inj h)
    obtain ⟨rows, hr⟩ := hok c0 hst
    rw [← h2.1]
    exact buildCaches_inv rows c0 hr
  | none =>
    rw [hst] at h
    cases hb : buildCaches st.db.committee with
    | none =>
      rw [hb] at h
      exact absurd h (by simp)
    | some c0 =>
      rw [hb] at h
      have h2 := Prod.mk.inj (Except.ok.inj h)
      rw [← h2.1]
      exact buildCaches_inv st.db.committee c0 hb

/-- The first name `resolveLoop` reports unresolved really is an unresolved
name of the list. -/
theorem resolveLoop_inl (c : Caches) :
    ∀ (names : List String) (bad : String), resolveLoop c names = Sum.inl bad →
      bad ∈ names ∧ fuzzyMatchMember c bad = none := by
  intro names
  induction names with
  | nil => intro bad h; simp [resolveLoop] at h
  | cons n rest ih =>
    intro bad h
    rw [resolveLoop] at h
    cases hf : fuzzyMatchMember c n with
    | none =>
      rw [hf] at h
      have hbn : n = bad := Sum.inl.inj h
      subst hbn
      exact ⟨List.mem_cons_self _ _, hf⟩
    | some m =>
      rw [hf] at h
      cases hr : resolveLoop c rest with
      | inl bad2 =>
        rw [hr] at h
        have hb2 : bad2 = bad := Sum.inl.inj h
        obtain ⟨h1, h2⟩ := ih bad2 hr
        rw [hb2] at h1 h2
        exact ⟨List.mem_cons_of_mem _ h1, h2⟩
      | inr l =>
        rw [hr] at h
        exact absurd h (by simp)

/-- Elements passing the junction-pair test are that pair. -/
theorem pairHit_eq (tid mid : Nat) (p : Nat × Nat) :
    (p.1 == tid && p.2 == mid) = true ↔ p = (tid, mid) := by
  obtain ⟨x, y⟩ := p
  simp [Prod.ext_iff]

/-- In a duplicate-free junction table, filtering for a present pair gives
exactly that one row. -/
theorem filter_pair_single (tid mid : Nat) :
    ∀ l : List (Nat × Nat), l.Nodup → (tid, mid) ∈ l →
      l.filter (fun p => p.1 == tid && p.2 == mid) = [(tid, mid)] := by
  intro l
  induction l with
  | nil => intro _ h; simp at h
  | cons a rest ih =>
    intro hnd hmem
    have hnd2 := List.nodup_cons.mp hnd
    by_cases ha : a = (tid, mid)
    · subst ha
      have hrest : rest.filter (fun p => p.1 == tid && p.2 == mid) = [] := by
        rw [List.filter_eq_nil_iff]
        intro p hp hhit
        exact hnd2.1 ((pairHit_eq tid mid p).mp hhit ▸ hp)
      rw [List.filter_cons_of_pos (by simp), hrest]
    · have hmem2 : (tid, mid) ∈ rest := by
        rcases List.mem_cons.mp hmem with h | h
        · exact absurd h.symm ha
        · exact h
      rw [List.filter_cons, if_neg (fun hh => ha ((pairHit_eq tid mid a).mp hh))]
      exact ih hnd2.2 hmem2

/-- A pair absent from the junction table filters to nothing. -/
theorem filter_pair_nil (tid mid : Nat) (l : List (Nat × Nat))
    (h : (tid, mid) ∉ l) :
    l.filter (fun p => p.1 == tid && p.2 == mid) = [] := by
  rw [List.filter_eq_nil_iff]
  intro p hp hhit
  exact h ((pairHit_eq tid mid p).mp hhit ▸ hp)

/-- `taskLe` is total. -/
instance : IsTotal TaskRow taskLe := ⟨fun t1 t2 => Nat.le_total (deadlineKey t1.task_deadline) (deadlineKey t2.task_deadline)⟩

/-- `taskLe` is transitive. -/
instance : IsTrans TaskRow taskLe := ⟨fun _ _ _ => Nat.le_trans⟩

/-- Deadlines reachable through `create_task`'s parser stay below the
null-deadline sentinel of the `ORDER BY` key. -/
def dateBoundedB : Option Date → Bool
  | none => true
  | some d => d.year ≤ 9999 && d.month ≤ 99 && d.day ≤ 99

/-- Bounded deadline keys sit strictly below the null sentinel. -/
theorem deadlineKey_lt_sentinel (d : Date) (h : dateBoundedB (some d) = true) :
    deadlineKey (some d) < 100000000 := by
  simp only [dateBoundedB, Bool.and_eq_true, decide_eq_true_eq] at h
  simp only [deadlineKey]
  omega

/-! ## A concrete state for the witnesses -/

/-- A small committee store exercising first-name sharing, duplicate task
names, near-miss project names and overlapping topic names. -/
def demoDB : DB :=
  { committee :=
      [⟨1, "Sam Jones", some 42, some "President", none, some "sam@x.org"⟩,
        ⟨2, "Alex Kim", none, none, none, none⟩,
        ⟨3, "Alex Lee", some 7, none, none, none⟩],
    tasks :=
      [⟨1, "Write minutes", none, some ⟨2024, 3, 1⟩, some "complete"⟩,
        ⟨2, "Book room", none, none, none⟩,
        ⟨3, "Send agenda", none, some ⟨2024, 1, 15⟩, some "incomplete"⟩],
    meetings := [],
    projects := [⟨1, "fooXbar", none⟩],
    topics := [⟨1, "Budget 2024", none⟩, ⟨2, "Budget planning", none⟩],
    task_members := [(1, 1)],
    meeting_members := [],
    meeting_topics := [],
    meeting_tasks := [],
    meeting_projects := [],
    project_members := [],
    project_tasks := [],
    next_task_id := 4,
    next_project_id := 2,
    next_topic_id := 3 }

/-- The demo state before any tool call (no cache loaded yet). -/
def st0 : St := ⟨demoDB, none, 0⟩

/-- The member cache `_ensure_cache` builds for the demo committee. -/
def demoCaches : Caches := (buildCaches demoDB.committee).getD ⟨[], []⟩

/-- The demo state after its cache has been ensured. -/
def stC : St := ⟨demoDB, some demoCaches, 0⟩

/-! ## The claims -/

/-- C1: the router boundary `ToolExecutor.execute` never propagates an
exception: a failure `e` raised by the dispatched operation is caught and
converted into the envelope `{"error": "Tool execution failed: <e>"}` with
the failed transaction rolled back (state unchanged), and a normal result
is passed through unchanged, so every call returns a well-formed envelope. -/
theorem C1_router_catches_failures (name : String) (args : List (String × ArgVal))
    (uid : Option Nat) (st : St) :
    (∀ e, callTool name args uid st = Except.error e →
      executeTool name args uid st = (failEnvelope e, st)) ∧
    (∀ r, callTool name args uid st = Except.ok r →
      executeTool name args uid st = r) := by
  constructor
  · intro e h
    simp only [executeTool, h]
  · intro r h
    simp only [executeTool, h]

/-- Witness for C1: `get_member_info` without its required argument raises
`KeyError('member_name')`, which the boundary turns into the failure
envelope. -/
theorem C1_router_catches_failures_witness :
    executeTool "get_member_info" [] none st0 =
      (failEnvelope (keyErrMsg "member_name"), st0) :=
  (C1_router_catches_failures "get_member_info" [] none st0).1
    (keyErrMsg "member_name") rfl

/-- C8: a tool name outside the recognized catalog is answered with the
`Unknown tool: <name>` envelope, the state untouched and no storage
access, and no exception. -/
theorem C8_unknown_tool (name : String) (args : List (String × ArgVal))
    (uid : Option Nat) (st : St) (h : name ∉ knownTools) :
    callTool name args uid st =
      Except.ok ([("error", jS ("Unknown tool: " ++ name))], st) := by
  simp only [knownTools, List.mem_cons, List.not_mem_nil, or_false, not_or] at h
  obtain ⟨h1, h2, h3, h4, h5, h6, h7, h8, h9, h10, h11, h12, h13, h14, h15,
    h16, h17, h18, h19, h20, h21⟩ := h
  simp [callTool, h1, h2, h3, h4, h5, h6, h7, h8, h9, h10, h11, h12, h13,
    h14, h15, h16, h17, h18, h19, h20, h21]

/-- Witness for C8: `delete_everything` is not a recognized tool. -/
theorem C8_unknown_tool_witness :
    callTool "delete_everything" [] none st0 =
      Except.ok ([("error", jS ("Unknown tool: " ++ "delete_everything"))], st0) :=
  C8_unknown_tool "delete_everything" [] none st0 (by decide)

/-- C9: an input that strips to the empty string, or whose cleaned key is
empty after dropping a trailing parenthetical and trailing punctuation,
resolves to no member (the exact, first-name and fuzzy stages all miss),
and `get_member_info` answers with its NotFound envelope, the store
untouched. -/
theorem C9_empty_input (st : St) (input : String) (hok : cacheOk st)
    (hempty : cleanKey (pyStrip input) = "") :
    ∀ c stc, ensureCache st = Except.ok (c, stc) →
      fuzzyMatchMember c input = none ∧
      getMemberInfo input st = Except.ok (memberNotFound input, stc) := by
  intro c stc hc
  have hinv : CachesInv c := ensureCache_inv st c stc hok hc
  have hfmm : fuzzyMatchMember c input = none := by
    rw [fuzzyMatchMember]
    by_cases hraw : pyStrip input = ""
    · rw [if_pos hraw]
    · rw [if_neg hraw, hempty]
      have hlf : List.lookup "" c.full = none :=
        lookup_none "" c.full (fun p hp => fullInv_key_ne c.full hinv.1 p hp)
      have hfn : firstNameMatches c "" = [] := by
        rw [firstNameMatches,
          lookup_none "" c.fidx (fun p hp => fidxInv_key_ne c.fidx hinv.2.1 p hp)]
      have hsp : (("" : String).data.contains ' ') = false := rfl
      simp only [hlf, hsp, Bool.false_eq_true, if_false, hfn]
      exact fuzzyStage_empty c hinv
  refine ⟨hfmm, ?_⟩
  simp only [getMemberInfo, hc, bind, Except.bind, hfmm]

/-- Witness for C9: `"---"` cleans to the empty string, resolves to nobody
and produces the member NotFound envelope. -/
theorem C9_empty_input_witness :
    fuzzyMatchMember demoCaches "---" = none ∧
    getMemberInfo "---" st0 = Except.ok (memberNotFound "---", stC) :=
  C9_empty_input st0 "---" (fun c h => by simp [st0] at h) rfl demoCaches stC rfl

/-- The state `create_task` commits when given no deadline, no assignee
list and no self-assignment: one new task row with the serial id and status
`incomplete`, no junction rows, and the counter bumped. -/
def createTaskPlainSt (task_name : String) (descr : Option String) (stc : St) : St :=
  { stc with db :=
    { stc.db with
        tasks := stc.db.tasks ++
          [⟨stc.db.next_task_id, task_name, descr, none, some "incomplete"⟩],
        next_task_id := stc.db.next_task_id + 1 } }

/-- The envelope `create_task` returns for that same plain call. -/
def createTaskPlainEnv (task_name : String) (_descr : Option String) (stc : St) : Obj :=
  [("success", JVal.b true),
    ("message", jS ("Created task '" ++ task_name ++ "'" ++ "")),
    ("task_id", jNat stc.db.next_task_id), ("task_name", jS task_name),
    ("deadline", JVal.null), ("assigned_to", JVal.arr [])]

/-- C10: `create_task` performs no duplicate-name check: whatever the task
name — including the exact name of an existing task — it inserts a fresh row
with the next serial id and status `incomplete`, and a second identical call
inserts a second task with a distinct id. -/
theorem C10_create_task_no_dedup (st : St) (c : Caches) (stc : St)
    (h : ensureCache st = Except.ok (c, stc)) (task_name : String)
    (descr : Option String) :
    createTask task_name descr none none false none st =
      Except.ok (createTaskPlainEnv task_name descr stc,
        createTaskPlainSt task_name descr stc) ∧
    createTask task_name descr none none false none
        (createTaskPlainSt task_name descr stc) =
      Except.ok (createTaskPlainEnv task_name descr (createTaskPlainSt task_name descr stc),
        createTaskPlainSt task_name descr (createTaskPlainSt task_name descr stc)) ∧
    (createTaskPlainSt task_name descr
        (createTaskPlainSt task_name descr stc)).db.tasks =
      stc.db.tasks ++
        [⟨stc.db.next_task_id, task_name, descr, none, some "incomplete"⟩,
          ⟨stc.db.next_task_id + 1, task_name, descr, none, some "incomplete"⟩] := by
  refine ⟨?_, ?_, ?_⟩
  · simp only [createTask, h, bind, Except.bind, parseDeadline, resolveLoop,
      List.map_nil, List.append_nil]
    rfl
  · have hcc : (createTaskPlainSt task_name descr stc).cache = some c :=
      (ensureCache_cache st c stc h).1
    have h2 := ensureCache_some (createTaskPlainSt task_name descr stc) c hcc
    simp only [createTask, h2, bind, Except.bind, parseDeadline, resolveLoop,
      List.map_nil, List.append_nil]
    rfl
  · show (stc.db.tasks ++ _) ++ _ = _
    rw [List.append_assoc]
    rfl

/-- Witness for C10: creating a task named `Book room` — the name of an
existing task of the demo store — succeeds twice, appending two rows with
ids 4 and 5. -/
theorem C10_create_task_no_dedup_witness :
    createTask "Book room" none none none false none st0 =
      Except.ok (createTaskPlainEnv "Book room" none stC,
        createTaskPlainSt "Book room" none stC) ∧
    createTask "Book room" none none none false none
        (createTaskPlainSt "Book room" none stC) =
      Except.ok (createTaskPlainEnv "Book room" none (createTaskPlainSt "Book room" none stC),
        createTaskPlainSt "Book room" none (createTaskPlainSt "Book room" none stC)) ∧
    (createTaskPlainSt "Book room" none
        (createTaskPlainSt "Book room" none stC)).db.tasks =
      stC.db.tasks ++
        [⟨stC.db.next_task_id, "Book room", none, none, some "incomplete"⟩,
          ⟨stC.db.next_task_id + 1, "Book room", none, none, some "incomplete"⟩] :=
  C10_create_task_no_dedup st0 demoCaches stC rfl "Book room" none

/-- `scalar_one_or_none` returns `None` exactly on an empty result. -/
theorem scalarOneOrNone_none {α : Type} (l : List α)
    (h : scalarOneOrNone l = Except.ok none) : l = [] := by
  cases l with
  | nil => rfl
  | cons a rest =>
    cases rest with
    | nil => simp [scalarOneOrNone] at h
    | cons b r2 => simp [scalarOneOrNone] at h

/-- C4: linking a member to a task is idempotence-guarded: when the pair is
already present in the `task_members` junction the operation returns the
already-assigned Conflict envelope and inserts nothing, and every call that
returns normally keeps the junction table free of duplicate pairs. -/
theorem C4_assign_idempotence_guard (ident member_name : String) (st : St)
    (hnd : st.db.task_members.Nodup) :
    (∀ o st', assignMemberToTask ident member_name st = Except.ok (o, st') →
      st'.db.task_members.Nodup) ∧
    (∀ c stc m task,
      ensureCache st = Except.ok (c, stc) →
      fuzzyMatchMember c member_name = some m →
      taskById ident stc.db = Except.ok (some task) →
      (task.task_id, m.id) ∈ stc.db.task_members →
      assignMemberToTask ident member_name st =
        Except.ok ([("error",
          jS (m.name ++ " is already assigned to '" ++ task.task_name ++ "'"))],
          stc)) := by
  have hins : ∀ (stc : St) (task : TaskRow) (mid : Nat),
      stc.db.task_members.Nodup →
      stc.db.task_members.filter (fun p =>
        p.1 == task.task_id && p.2 == mid) = [] →
      (stc.db.task_members ++ [(task.task_id, mid)]).Nodup := by
    intro stc task mid hdb hnil
    have hnotmem : (task.task_id, mid) ∉ stc.db.task_members := by
      intro hmem
      have hm2 : (task.task_id, mid) ∈
          stc.db.task_members.filter (fun p =>
            p.1 == task.task_id && p.2 == mid) := by
        rw [List.mem_filter]
        exact ⟨hmem, by simp⟩
      rw [hnil] at hm2
      simp at hm2
    rw [List.nodup_append]
    refine ⟨hdb, by simp, ?_⟩
    intro a ha hb
    rw [List.mem_singleton] at hb
    exact hnotmem (hb ▸ ha)
  constructor
  · intro o st' h2
    unfold assignMemberToTask at h2
    cases hec : ensureCache st with
    | error e =>
      rw [hec] at h2
      simp [bind, Except.bind] at h2
    | ok p =>
      obtain ⟨c, stc⟩ := p
      rw [hec] at h2
      simp only [bind, Except.bind] at h2
      have hdb : stc.db.task_members.Nodup := by
        rw [(ensureCache_cache st c stc hec).2.1]
        exact hnd
      cases hf : fuzzyMatchMember c member_name with
      | none =>
        rw [hf] at h2
        have h3 := Prod.mk.inj (Except.ok.inj h2)
        rw [← h3.2]
        exact hdb
      | some m =>
        rw [hf] at h2
        cases hbid : taskById ident stc.db with
        | error e =>
          rw [hbid] at h2
          simp [bind, Except.bind] at h2
        | ok byId =>
          rw [hbid] at h2
          simp only [bind, Except.bind] at h2
          cases byId with
          | some task =>
            simp only [] at h2
            cases hex : scalarOneOrNone (stc.db.task_members.filter (fun p =>
                p.1 == task.task_id && p.2 == m.id)) with
            | error e =>
              rw [hex] at h2
              simp [bind, Except.bind] at h2
            | ok existing =>
              rw [hex] at h2
              simp only [bind, Except.bind] at h2
              cases existing with
              | some q =>
                have h3 := Prod.mk.inj (Except.ok.inj h2)
                rw [← h3.2]
                exact hdb
              | none =>
                have h3 := Prod.mk.inj (Except.ok.inj h2)
                rw [← h3.2]
                exact hins stc task m.id hdb (scalarOneOrNone_none _ hex)
          | none =>
            cases hm : taskMatches ident stc.db with
            | nil =>
              rw [hm] at h2
              simp only [] at h2
              have h3 := Prod.mk.inj (Except.ok.inj h2)
              rw [← h3.2]
              exact hdb
            | cons t ts =>
              cases ts with
              | nil =>
                rw [hm] at h2
                simp only [] at h2
                cases hex : scalarOneOrNone (stc.db.task_members.filter (fun p =>
                    p.1 == t.task_id && p.2 == m.id)) with
                | error e =>
                  rw [hex] at h2
                  simp [bind, Except.bind] at h2
                | ok existing =>
                  rw [hex] at h2
                  simp only [bind, Except.bind] at h2
                  cases existing with
                  | some q =>
                    have h3 := Prod.mk.inj (Except.ok.inj h2)
                    rw [← h3.2]
                    exact hdb
                  | none =>
                    have h3 := Prod.mk.inj (Except.ok.inj h2)
                    rw [← h3.2]
                    exact hins stc t m.id hdb (scalarOneOrNone_none _ hex)
              | cons t2 ts2 =>
                rw [hm] at h2
                simp only [] at h2
                have h3 := Prod.mk.inj (Except.ok.inj h2)
                rw [← h3.2]
                exact hdb
  · intro c stc m task hec hf hbid hmem
    have hdb : stc.db.task_members.Nodup := by
      rw [(ensureCache_cache st c stc hec).2.1]
      exact hnd
    have hfilter : stc.db.task_members.filter (fun p =>
        p.1 == task.task_id && p.2 == m.id) = [(task.task_id, m.id)] :=
      filter_pair_single _ _ _ hdb hmem
    rw [assignMemberToTask, hec]
    simp only [bind, Except.bind, hf, hbid, hfilter, scalarOneOrNone]

/-- Witness for C4: the pair (task 1, member 1) of the demo store is already
linked, so assigning Sam Jones to task `1` again returns the Conflict
envelope and leaves the store unchanged. -/
theorem C4_assign_idempotence_guard_witness :
    assignMemberToTask "1" "Sam Jones" st0 =
      Except.ok ([("error",
        jS ("Sam Jones" ++ " is already assigned to '" ++ "Write minutes" ++ "'"))],
        stC) :=
  (C4_assign_idempotence_guard "1" "Sam Jones" st0 (by decide)).2 demoCaches stC
    ⟨1, "Sam Jones", some 42, some "President", none, some "sam@x.org"⟩
    ⟨1, "Write minutes", none, some ⟨2024, 3, 1⟩, some "complete"⟩
    rfl rfl rfl (by decide)

/-- C3 (amended): once the deadline has validated, `create_task` is
all-or-nothing over its assignee list: the first unresolvable name aborts
the whole operation with the member NotFound envelope naming it, and no
task row or junction row is written (an invalid deadline, however, is
reported before any name resolution happens). -/
theorem C3_all_or_nothing (st : St) (c : Caches) (stc : St)
    (h : ensureCache st = Except.ok (c, stc))
    (task_name : String) (descr : Option String) (deadline : Option String)
    (dl : Option Date) (hd : parseDeadline deadline = Sum.inr dl)
    (names : List String) (bad : String)
    (hbad : resolveLoop c names = Sum.inl bad)
    (flag : Bool) (uid : Option Nat) :
    createTask task_name descr deadline (some names) flag uid st =
      Except.ok (memberNotFound bad, stc) ∧
    bad ∈ names ∧ fuzzyMatchMember c bad = none ∧ stc.db = st.db := by
  obtain ⟨hmem, hres⟩ := resolveLoop_inl c names bad hbad
  refine ⟨?_, hmem, hres, (ensureCache_cache st c stc h).2.1⟩
  rw [createTask, h]
  simp only [bind, Except.bind, hd, hbad]

/-- Witness for C3: with a valid deadline, the unresolvable assignee
`Nobody` aborts the creation with the NotFound envelope and no write. -/
theorem C3_all_or_nothing_witness :
    createTask "t" none (some "2024-05-06") (some ["Nobody"]) false none st0 =
      Except.ok (memberNotFound "Nobody", stC) ∧
    "Nobody" ∈ ["Nobody"] ∧ fuzzyMatchMember demoCaches "Nobody" = none ∧
    stC.db = st0.db :=
  C3_all_or_nothing st0 demoCaches stC rfl "t" none (some "2024-05-06")
    (some ⟨2024, 5, 6⟩) rfl ["Nobody"] "Nobody" rfl false none

/-- Counterexample to C3 as stated: the assignee `Nobody` fails resolution,
yet the call returns the invalid-deadline envelope rather than a NotFound
error naming `Nobody`, because deadline validation runs first. -/
theorem C3_counterexample :
    fuzzyMatchMember demoCaches "Nobody" = none ∧
    createTask "t" none (some "soon") (some ["Nobody"]) false none st0 =
      Except.ok ([("error", jS "Invalid deadline format. Please use YYYY-MM-DD")],
        stC) :=
  ⟨rfl, rfl⟩

/-- The state committed by a successful `create_topic`. -/
def createTopicSt (name : String) (descr : Option String) (st : St) : St :=
  { st with db := { st.db with
      topics := st.db.topics ++ [⟨st.db.next_topic_id, name, descr⟩],
      next_topic_id := st.db.next_topic_id + 1 } }

/-- The state committed by a successful `create_project` without team
members. -/
def createProjectPlainSt (name : String) (descr : Option String) (stc : St) : St :=
  { stc with db := { stc.db with
      projects := stc.db.projects ++ [⟨stc.db.next_project_id, name, descr⟩],
      next_project_id := stc.db.next_project_id + 1 } }

/-- C5 (amended): the duplicate check of `create_topic` / `create_project`
matches existing names with SQL `ILIKE`, using the supplied name as the raw
pattern (so `%` and `_` in it act as wildcards), not by case-insensitive
equality: exactly one matching row gives the Conflict envelope and inserts
nothing, zero matching rows insert exactly one new row, and two or more
matching rows raise `MultipleResultsFound` instead of reporting a
conflict. -/
theorem C5_create_duplicate_check (st : St) (name : String) (descr : Option String) :
    ((topicNameHits name st.db = [] →
        createTopic name descr st = Except.ok (
          [("success", JVal.b true),
            ("message", jS ("Created topic '" ++ name ++ "'")),
            ("topic_id", jNat st.db.next_topic_id), ("topic_name", jS name)],
          createTopicSt name descr st)) ∧
      (∀ t, topicNameHits name st.db = [t] →
        createTopic name descr st = Except.ok (
          [("error", jS ("A topic named '" ++ name ++ "' already exists"))], st)) ∧
      (∀ t1 t2 ts, topicNameHits name st.db = t1 :: t2 :: ts →
        createTopic name descr st = Except.error multiRowsMsg)) ∧
    (topicNameHits name st.db =
      st.db.topics.filter (fun t => ilike name t.topic_name) ∧
      projectNameHits name st.db =
        st.db.projects.filter (fun p => ilike name p.project_name)) ∧
    (∀ c stc, ensureCache st = Except.ok (c, stc) →
      (projectNameHits name stc.db = [] →
        createProject name descr none st = Except.ok (
          [("success", JVal.b true),
            ("message", jS ("Created project '" ++ name ++ "'" ++ "")),
            ("project_id", jNat stc.db.next_project_id),
            ("project_name", jS name),
            ("team_members", JVal.arr [])],
          createProjectPlainSt name descr stc)) ∧
      (∀ p, projectNameHits name stc.db = [p] →
        createProject name descr none st = Except.ok (
          [("error", jS ("A project named '" ++ name ++ "' already exists"))], stc)) ∧
      (∀ p1 p2 ps, projectNameHits name stc.db = p1 :: p2 :: ps →
        createProject name descr none st = Except.error multiRowsMsg)) := by
  refine ⟨⟨?_, ?_, ?_⟩, ⟨rfl, rfl⟩, ?_⟩
  · intro hz
    rw [createTopic]
    simp only [bind, Except.bind, hz, scalarOneOrNone]
    rfl
  · intro t ht
    rw [createTopic]
    simp only [bind, Except.bind, ht, scalarOneOrNone]
  · intro t1 t2 ts ht
    rw [createTopic]
    simp only [bind, Except.bind, ht, scalarOneOrNone]
  · intro c stc hc
    refine ⟨?_, ?_, ?_⟩
    · intro hz
      rw [createProject, hc]
      simp only [bind, Except.bind, resolveLoop, hz, scalarOneOrNone,
        List.map_nil, List.append_nil]
      rfl
    · intro p hp
      rw [createProject, hc]
      simp only [bind, Except.bind, resolveLoop, hp, scalarOneOrNone]
    · intro p1 p2 ps hp
      rw [createProject, hc]
      simp only [bind, Except.bind, resolveLoop, hp, scalarOneOrNone]

/-- Witness for C5: creating the topic `Budget 2024` over the demo store,
which already holds a topic of exactly that name, returns the Conflict
envelope and inserts nothing. -/
theorem C5_create_duplicate_check_witness :
    createTopic "Budget 2024" none st0 = Except.ok (
      [("error", jS ("A topic named '" ++ "Budget 2024" ++ "' already exists"))],
      st0) :=
  (C5_create_duplicate_check st0 "Budget 2024" none).1.2.1 ⟨1, "Budget 2024", none⟩ rfl

/-- Counterexample to C5 as stated: `foo_bar` equals no existing project
name case-insensitively (the store holds only `fooXbar`), yet creation is
rejected with the Conflict envelope, because the unescaped `_` of the
supplied name acts as an `ILIKE` wildcard and matches `fooXbar`. -/
theorem C5_counterexample :
    lowerStr "foo_bar" ≠ lowerStr "fooXbar" ∧
    demoDB.projects = [⟨1, "fooXbar", none⟩] ∧
    createProject "foo_bar" none none st0 =
      Except.ok ([("error", jS "A project named 'foo_bar' already exists")], stC) :=
  ⟨by decide, rfl, rfl⟩

/-- C7: `get_all_tasks` renders the stored tasks sorted by deadline
ascending with unset deadlines placed last — a permutation of the
status-filtered table (any filter other than `complete`/`incomplete`,
including `all`, keeps every row) — and a task whose stored status is null
is displayed with status `incomplete`. -/
theorem C7_task_listing_order (st : St) (filt : String)
    (hdates : ∀ t ∈ st.db.tasks, dateBoundedB t.task_deadline = true) :
    getAllTasks filt st = Except.ok (
      [("message",
          jS ("Found " ++ toString (allTasksSorted st.db filt).length ++ " task(s)"
            ++ (if filt ≠ "all" then " with status '" ++ filt ++ "'" else ""))),
        ("tasks", JVal.arr ((allTasksSorted st.db filt).map (jAllTask st.db)))],
      st) ∧
    (allTasksSorted st.db filt).Perm (filterTasks filt st.db.tasks) ∧
    List.Pairwise (fun t1 t2 =>
      match t1.task_deadline, t2.task_deadline with
      | some d1, some d2 => deadlineKey (some d1) ≤ deadlineKey (some d2)
      | _, none => True
      | none, some _ => False) (allTasksSorted st.db filt) ∧
    filterTasks "all" st.db.tasks = st.db.tasks ∧
    (∀ t : TaskRow, t.task_status = none →
      jAllTask st.db t = JVal.obj
        [("task_id", jNat t.task_id), ("name", jS t.task_name),
          ("description", jOptS t.task_description),
          ("deadline", jDeadline t.task_deadline),
          ("status", jS "incomplete"),
          ("assigned_to", JVal.arr ((taskAssignees st.db t.task_id).map jS))]) := by
  refine ⟨rfl, List.perm_insertionSort _ _, ?_, ?_, ?_⟩
  · have hs : List.Pairwise taskLe (allTasksSorted st.db filt) :=
      List.sorted_insertionSort taskLe (filterTasks filt st.db.tasks)
    have hmem : ∀ t ∈ allTasksSorted st.db filt, t ∈ st.db.tasks := by
      intro t ht
      have h1 : t ∈ filterTasks filt st.db.tasks :=
        (List.perm_insertionSort taskLe _).mem_iff.mp ht
      rw [filterTasks] at h1
      split_ifs at h1
      · exact List.mem_of_mem_filter h1
      · exact List.mem_of_mem_filter h1
      · exact h1
    refine List.Pairwise.imp_of_mem ?_ hs
    intro a b ha hb hab
    have hda := hdates a (hmem a ha)
    have hdb2 := hdates b (hmem b hb)
    rw [taskLe] at hab
    cases h1 : a.task_deadline with
    | none =>
      cases h2 : b.task_deadline with
      | none => exact trivial
      | some d2 =>
        rw [h1, h2] at hab
        rw [h2] at hdb2
        have := deadlineKey_lt_sentinel d2 hdb2
        simp only [deadlineKey] at hab this
        omega
    | some d1 =>
      cases h2 : b.task_deadline with
      | none => exact trivial
      | some d2 =>
        rw [h1, h2] at hab
        exact hab
  · rw [filterTasks, if_neg (by decide), if_neg (by decide)]
  · intro t ht
    simp only [jAllTask, ht, statusOr]

/-- Witness for C7: the demo store listed with the `all` filter. -/
theorem C7_task_listing_order_witness :
    getAllTasks "all" st0 = Except.ok (
      [("message",
          jS ("Found " ++ toString (allTasksSorted st0.db "all").length ++ " task(s)"
            ++ (if "all" ≠ "all" then " with status '" ++ "all" ++ "'" else ""))),
        ("tasks", JVal.arr ((allTasksSorted st0.db "all").map (jAllTask st0.db)))],
      st0) ∧
    (allTasksSorted st0.db "all").Perm (filterTasks "all" st0.db.tasks) ∧
    List.Pairwise (fun t1 t2 =>
      match t1.task_deadline, t2.task_deadline with
      | some d1, some d2 => deadlineKey (some d1) ≤ deadlineKey (some d2)
      | _, none => True
      | none, some _ => False) (allTasksSorted st0.db "all") ∧
    filterTasks "all" st0.db.tasks = st0.db.tasks ∧
    (∀ t : TaskRow, t.task_status = none →
      jAllTask st0.db t = JVal.obj
        [("task_id", jNat t.task_id), ("name", jS t.task_name),
          ("description", jOptS t.task_description),
          ("deadline", jDeadline t.task_deadline),
          ("status", jS "incomplete"),
          ("assigned_to", JVal.arr ((taskAssignees st0.db t.task_id).map jS))]) :=
  C7_task_listing_order st0 "all" (by decide)

/-- C2 (amended): for a non-numeric identifier, the zero → NotFound /
one → that row / many → Ambiguous-with-up-to-5-(id, name)-pairs policy is
followed by `update_task_status` (and `get_meeting_info`), but not
uniformly: `remove_member_from_task` reports NotFound when several tasks
match (it has no ambiguity branch), and `get_topic_info` silently returns
the first match however many there are. -/
theorem C2_resolution_policy (ident : String) (hnum : pyParseInt ident = none)
    (st : St) (status : String)
    (hstat : status = "complete" ∨ status = "incomplete") :
    (taskMatches ident st.db = [] →
      updateTaskStatus ident status st = Except.ok (taskNotFound ident, st)) ∧
    (∀ t, taskMatches ident st.db = [t] →
      updateTaskStatus ident status st = Except.ok (
        [("success", JVal.b true),
          ("message", jS ("Task '" ++ t.task_name ++ "' status updated from '"
            ++ statusOr t.task_status ++ "' to '" ++ status ++ "'")),
          ("task_id", jNat t.task_id), ("task_name", jS t.task_name),
          ("old_status", jS (statusOr t.task_status)), ("new_status", jS status)],
        { st with db := { st.db with tasks := st.db.tasks.map (fun tt =>
            if tt.task_id == t.task_id then { tt with task_status := some status }
            else tt) } })) ∧
    (∀ t1 t2 ts, taskMatches ident st.db = t1 :: t2 :: ts →
      updateTaskStatus ident status st = Except.ok (
        taskAmbiguous "Multiple tasks match that name. Please be more specific."
          (t1 :: t2 :: ts), st)) ∧
    (∀ member_name c stc m, ensureCache st = Except.ok (c, stc) →
      fuzzyMatchMember c member_name = some m →
      ∀ t1 t2 ts, taskMatches ident stc.db = t1 :: t2 :: ts →
        removeMemberFromTask ident member_name st =
          Except.ok (taskNotFound ident, stc)) ∧
    (∀ t ts, topicMatches ident st.db = t :: ts →
      getTopicInfo ident st = Except.ok (
        [("topic_id", jNat t.topic_id), ("name", jS t.topic_name),
          ("description", jOptS t.topic_description),
          ("discussed_in_meetings", JVal.arr
            ((joinViaR st.db.meeting_topics t.topic_id st.db.meetings
              MeetingRow.meeting_id).map (fun m =>
                JVal.obj [("name", jS m.meeting_name),
                  ("type", jOptS m.meeting_type)])))], st)) ∧
    (∀ m1 m2 ms, meetingMatches ident st.db = m1 :: m2 :: ms →
      getMeetingInfo ident st = Except.ok (
        [("error", jS "Multiple meetings match that name"),
          ("matches", JVal.arr (((m1 :: m2 :: ms).take 5).map (fun m =>
            JVal.obj [("id", jNat m.meeting_id),
              ("name", jS m.meeting_name)])))], st)) := by
  have hns : ¬(status ≠ "complete" ∧ status ≠ "incomplete") := by
    rcases hstat with h | h <;> simp [h]
  have hbid : ∀ db : DB, taskById ident db = Except.ok none := by
    intro db
    rw [taskById, hnum]
  have hmid : ∀ db : DB, meetingById ident db = Except.ok none := by
    intro db
    rw [meetingById, hnum]
  refine ⟨?_, ?_, ?_, ?_, ?_, ?_⟩
  · intro hm
    rw [updateTaskStatus, if_neg hns]
    simp only [bind, Except.bind, hbid st.db, hm]
  · intro t hm
    rw [updateTaskStatus, if_neg hns]
    simp only [bind, Except.bind, hbid st.db, hm]
  · intro t1 t2 ts hm
    rw [updateTaskStatus, if_neg hns]
    simp only [bind, Except.bind, hbid st.db, hm]
  · intro member_name c stc m hec hf t1 t2 ts hm
    rw [removeMemberFromTask, hec]
    simp only [bind, Except.bind, hf, hbid stc.db, hm]
  · intro t ts hm
    rw [getTopicInfo]
    simp only [hm]
  · intro m1 m2 ms hm
    rw [getMeetingInfo]
    simp only [bind, Except.bind, hmid st.db, hm]

/-- Witness for C2: the identifier `e` matches the two demo tasks
`Write minutes` and `Send agenda`, and `update_task_status` reports the
ambiguity with both candidates. -/
theorem C2_resolution_policy_witness :
    updateTaskStatus "e" "complete" st0 = Except.ok (
      taskAmbiguous "Multiple tasks match that name. Please be more specific."
        [⟨1, "Write minutes", none, some ⟨2024, 3, 1⟩, some "complete"⟩,
          ⟨3, "Send agenda", none, some ⟨2024, 1, 15⟩, some "incomplete"⟩], st0) :=
  (C2_resolution_policy "e" rfl st0 "complete" (Or.inl rfl)).2.2.1
    ⟨1, "Write minutes", none, some ⟨2024, 3, 1⟩, some "complete"⟩
    ⟨3, "Send agenda", none, some ⟨2024, 1, 15⟩, some "incomplete"⟩ [] rfl

/-- Counterexample to C2 as stated: `Budget` matches both demo topics, yet
`get_topic_info` returns the first topic's payload instead of an Ambiguous
envelope — Topic resolution does not follow the uniform policy. -/
theorem C2_counterexample :
    (topicMatches "Budget" st0.db).length = 2 ∧
    getTopicInfo "Budget" st0 = Except.ok (
      [("topic_id", jNat 1), ("name", jS "Budget 2024"),
        ("description", JVal.null),
        ("discussed_in_meetings", JVal.arr [])], st0) :=
  ⟨rfl, rfl⟩

/-- Reduction of the resolver on an exact full-name cache hit. -/
theorem fuzzyMatchMember_exact (c : Caches) (name : String)
    (hraw : pyStrip name ≠ "") (w : CMember)
    (hlf : List.lookup (cleanKey (pyStrip name)) c.full = some w) :
    fuzzyMatchMember c name = some w := by
  rw [fuzzyMatchMember, if_neg hraw]
  show (match List.lookup (cleanKey (pyStrip name)) c.full with
    | some m => some m
    | none =>
      if ((cleanKey (pyStrip name)).data.contains ' ') = true then
        fuzzyStage c (cleanKey (pyStrip name))
      else
        match firstNameMatches c (cleanKey (pyStrip name)) with
        | [m] => some m
        | _ => fuzzyStage c (cleanKey (pyStrip name))) = some w
  rw [hlf]

/-- Reduction of the resolver to the first-name tier when the exact tier
misses and the key has no space. -/
theorem fuzzyMatchMember_reduce (c : Caches) (name : String)
    (hraw : pyStrip name ≠ "")
    (hlf : List.lookup (cleanKey (pyStrip name)) c.full = none)
    (hns : ((cleanKey (pyStrip name)).data.contains ' ') = false) :
    fuzzyMatchMember c name =
      match firstNameMatches c (cleanKey (pyStrip name)) with
      | [m] => some m
      | _ => fuzzyStage c (cleanKey (pyStrip name)) := by
  rw [fuzzyMatchMember, if_neg hraw]
  show (match List.lookup (cleanKey (pyStrip name)) c.full with
    | some m => some m
    | none =>
      if ((cleanKey (pyStrip name)).data.contains ' ') = true then
        fuzzyStage c (cleanKey (pyStrip name))
      else
        match firstNameMatches c (cleanKey (pyStrip name)) with
        | [m] => some m
        | _ => fuzzyStage c (cleanKey (pyStrip name))) = _
  rw [hlf, hns]
  rfl

/-- C6: for a cleaned member query with no internal whitespace: when
exactly one cached member's first name matches it case-insensitively, the
resolver returns that member (also when the query simultaneously hits the
exact full-name tier — the two tiers agree on such a key); when zero or
several members share that first name, the resolver does not pick among
them but returns exactly what the fuzzy full-name stage (difflib,
cutoff 0.6) returns, hence NoMatch when that stage finds nothing. -/
theorem C6_first_name_resolution (rows : List MemberRow) (c : Caches)
    (hc : buildCaches rows = some c) (name : String)
    (hkey : ∀ ch ∈ (cleanKey (pyStrip name)).data, isPySpace ch = false) :
    (∀ u, firstNameMatches c (cleanKey (pyStrip name)) = [u] →
      fuzzyMatchMember c name = some u) ∧
    ((∀ u, firstNameMatches c (cleanKey (pyStrip name)) ≠ [u]) →
      fuzzyMatchMember c name = fuzzyStage c (cleanKey (pyStrip name))) := by
  have hinv := buildCaches_inv rows c hc
  have hAux : (cleanKey (pyStrip name)).data.contains ' ' = false := by
    by_contra hco
    rw [Bool.not_eq_false] at hco
    have hmem : ' ' ∈ (cleanKey (pyStrip name)).data := by simpa using hco
    have := hkey ' ' hmem
    simp [isPySpace] at this
  constructor
  · intro u hu
    have hlook : List.lookup (cleanKey (pyStrip name)) c.fidx = some [u] := by
      rw [firstNameMatches] at hu
      cases hl : List.lookup (cleanKey (pyStrip name)) c.fidx with
      | none =>
        rw [hl] at hu
        have hu2 : ([] : List CMember) = [u] := hu
        exact absurd hu2 (by simp)
      | some l =>
        rw [hl] at hu
        have hu2 : l = [u] := hu
        rw [hu2]
    have hkeyne : cleanKey (pyStrip name) ≠ "" :=
      fidxInv_key_ne c.fidx hinv.2.1 (cleanKey (pyStrip name), [u])
        (lookup_mem _ _ _ hlook)
    have hraw : pyStrip name ≠ "" := by
      intro hr
      apply hkeyne
      rw [hr]
      rfl
    cases hlf : List.lookup (cleanKey (pyStrip name)) c.full with
    | some w =>
      rw [fuzzyMatchMember_exact c name hraw w hlf]
      have hwmem := lookup_mem _ _ _ hlf
      have hfull := hinv.1 (cleanKey (pyStrip name), w) hwmem
      have hkeyEq : cleanKey (pyStrip name) = lowerStr w.name := hfull.1
      have hwname_ne : w.name ≠ "" := fullInv_name_ne c.full hinv.1 _ hwmem
      have hwnws : ∀ ch ∈ w.name.data, isPySpace ch = false := by
        rw [← lowerStr_noWS]
        rw [← hkeyEq]
        exact hkey
      have hsingle : pySplit w.name = [w.name] :=
        pySplit_single w.name hwname_ne hwnws
      have hcross := hinv.2.2 _ w hlf w.name [] hsingle
      rw [← hkeyEq, hlook] at hcross
      have hwu : w = u := by simpa using hcross
      rw [hwu]
    | none =>
      rw [fuzzyMatchMember_reduce c name hraw hlf hAux, hu]
  · intro hne
    by_cases hraw : pyStrip name = ""
    · rw [fuzzyMatchMember, if_pos hraw]
      have hkey0 : cleanKey (pyStrip name) = "" := by rw [hraw]; rfl
      rw [hkey0, fuzzyStage_empty c hinv]
    · cases hlf : List.lookup (cleanKey (pyStrip name)) c.full with
      | some w =>
        rw [fuzzyMatchMember_exact c name hraw w hlf]
        have hwmem := lookup_mem _ _ _ hlf
        have hkeyne : cleanKey (pyStrip name) ≠ "" :=
          fullInv_key_ne c.full hinv.1 (cleanKey (pyStrip name), w) hwmem
        have hkmem : cleanKey (pyStrip name) ∈ c.full.map Prod.fst :=
          List.mem_map.mpr ⟨(cleanKey (pyStrip name), w), hwmem, rfl⟩
        have hg := Difflib.gcm_self (cleanKey (pyStrip name))
          (c.full.map Prod.fst) hkeyne hkmem
        rw [fuzzyStage, hg, Option.some_bind]
        exact hlf.symm
      | none =>
        rw [fuzzyMatchMember_reduce c name hraw hlf hAux]
        cases hfm : firstNameMatches c (cleanKey (pyStrip name)) with
        | nil => rfl
        | cons m ms =>
          cases ms with
          | nil => exact absurd hfm (hne m)
          | cons m2 ms2 => rfl

/-- Witness for C6: `sam` is the first name of exactly one demo member, and
the resolver returns Sam Jones. -/
theorem C6_first_name_resolution_witness :
    fuzzyMatchMember demoCaches "sam" =
      some ⟨1, "Sam Jones", some 42, some "President", none, some "sam@x.org"⟩ :=
  (C6_first_name_resolution demoDB.committee demoCaches rfl "sam" (by decide)).1
    ⟨1, "Sam Jones", some 42, some "President", none, some "sam@x.org"⟩ rfl

end SecretaryAI
